import Mathlib

/-!
# Chat relay: room ids, message codec, delivery status and presence

A shallow embedding of `back/server.js` (the Express / Socket.IO relay) and of the
helpers of `chat/src/components/Dashboard.jsx` that the server's contract depends on.

* JavaScript strings are sequences of UTF-16 code units (`JsString`).
* The MongoDB `Message` collection is a list of documents in insertion order.
* The `activeUsers` map is an insertion-ordered association list, as a JavaScript `Map` is.
* Every handler is run to completion; what it emits is returned as a list of `Emit`s.
-/

namespace ChatApp

/-! ## JavaScript strings -/

/-- A JavaScript string: its UTF-16 code units. -/
abbrev JsString := List Nat

/-- The code units of an ASCII literal. -/
def js (s : String) : JsString := s.toList.map Char.toNat

/-- The abstract relational comparison `x < y` of two strings (ECMAScript `IsLessThan`):
code units are compared from the left, and a proper prefix is smaller. -/
def jsLess : JsString → JsString → Bool
  | [], [] => false
  | [], _ :: _ => true
  | _ :: _, [] => false
  | a :: as, b :: bs => if a < b then true else if b < a then false else jsLess as bs

/-- `SortCompare` of `Array.prototype.sort` called without a comparator, on strings. -/
def sortCompare (x y : JsString) : Int :=
  if jsLess x y then -1 else if jsLess y x then 1 else 0

/-- Insertion of `x` in front of the first element that does not sort before it. -/
def sortInsert (x : JsString) : List JsString → List JsString
  | [] => [x]
  | y :: ys => if sortCompare x y ≤ 0 then x :: y :: ys else y :: sortInsert x ys

/-- `Array.prototype.sort()` without a comparator: the stable arrangement by `SortCompare`. -/
def jsSort : List JsString → List JsString
  | [] => []
  | x :: xs => sortInsert x (jsSort xs)

/-- `Array.prototype.join(sep)`. -/
def join (sep : JsString) : List JsString → JsString
  | [] => []
  | [x] => x
  | x :: y :: rest => x ++ sep ++ join sep (y :: rest)

/-- The separator `"-"`. -/
def dash : JsString := [45]

/-- `getRoomId` of `Dashboard.jsx`: `[userId1, userId2].sort().join("-")`. -/
def getRoomId (userId1 userId2 : JsString) : JsString :=
  join dash (jsSort [userId1, userId2])

/-- The room id computed in `GET /api/users`: `[req.user.id, user._id].sort().join("-")`. -/
def serverRoomId (reqUserId userId : JsString) : JsString :=
  join dash (jsSort [reqUserId, userId])

/-! ## Message codec (`encrypt` / `decrypt`) -/

/-- One byte of a `Buffer`. -/
abbrev Byte := Fin 256

/-- The separator `":"` of an envelope. -/
def colon : Nat := 58

/-- The lowercase hexadecimal digit of a nibble, as `Buffer.toString("hex")` writes it. -/
def hexDigit (n : Nat) : Nat := if n < 10 then 48 + n else 87 + n

/-- The value of a code unit as a hexadecimal digit (`0-9`, `a-f`, `A-F`), if it is one.
Node's hex decoder reads only the low byte of a code unit, so `U+0130` counts as `"0"`. -/
def hexVal (c : Nat) : Option Nat :=
  if 48 ≤ c % 256 ∧ c % 256 ≤ 57 then some (c % 256 - 48)
  else if 97 ≤ c % 256 ∧ c % 256 ≤ 102 then some (c % 256 - 87)
  else if 65 ≤ c % 256 ∧ c % 256 ≤ 70 then some (c % 256 - 55)
  else none

/-- `buf.toString("hex")`: two lowercase digits per byte. -/
def hexEncode : List Byte → JsString
  | [] => []
  | b :: bs => hexDigit (b.val / 16) :: hexDigit (b.val % 16) :: hexEncode bs

/-- `Buffer.from(s, "hex")`: pairs of digits are decoded from the left, and decoding stops
at the first pair that is not two hexadecimal digits (a trailing single digit is dropped). -/
def hexDecode : JsString → List Byte
  | a :: b :: rest =>
    match hexVal a, hexVal b with
    | some x, some y => ⟨(16 * x + y) % 256, Nat.mod_lt _ (by decide)⟩ :: hexDecode rest
    | _, _ => []
  | _ => []

/-- `String.prototype.split(sep)` for a separator of one code unit. -/
def split (sep : Nat) : JsString → List JsString
  | [] => [[]]
  | c :: cs =>
    if c = sep then [] :: split sep cs
    else
      match split sep cs with
      | [] => [[c]]
      | p :: ps => (c :: p) :: ps

/-! ### UTF-8, the encoding `encrypt` reads the text in and `decrypt` returns it in -/

/-- The byte with the given value. -/
def byte (n : Nat) : Byte := Fin.ofNat n

/-- The UTF-8 encoding of U+FFFD, which replaces what cannot be encoded. -/
def replacementBytes : List Byte := [byte 0xEF, byte 0xBF, byte 0xBD]

/-- The code point of a surrogate pair. -/
def codePoint (hi lo : Nat) : Nat := 0x10000 + (hi - 0xD800) * 1024 + (lo - 0xDC00)

/-- The UTF-8 bytes of a string, as `cipher.update(text, "utf8")` reads it: a surrogate
pair becomes four bytes, an unpaired surrogate becomes the bytes of U+FFFD. -/
def utf8Encode : JsString → List Byte
  | [] => []
  | c :: rest =>
    if c < 0x80 then byte c :: utf8Encode rest
    else if c < 0x800 then byte (0xC0 + c / 64) :: byte (0x80 + c % 64) :: utf8Encode rest
    else if 0xD800 ≤ c ∧ c ≤ 0xDBFF then
      match rest with
      | d :: rest' =>
        if 0xDC00 ≤ d ∧ d ≤ 0xDFFF then
          byte (0xF0 + codePoint c d / 262144) :: byte (0x80 + codePoint c d / 4096 % 64) ::
            byte (0x80 + codePoint c d / 64 % 64) :: byte (0x80 + codePoint c d % 64) ::
            utf8Encode rest'
        else replacementBytes ++ utf8Encode (d :: rest')
      | [] => replacementBytes
    else if 0xDC00 ≤ c ∧ c ≤ 0xDFFF then replacementBytes ++ utf8Encode rest
    else
      byte (0xE0 + c / 4096) :: byte (0x80 + c / 64 % 64) :: byte (0x80 + c % 64) ::
        utf8Encode rest

/-- The code units of a code point above U+FFFF. -/
def surrogatePair (cp : Nat) : JsString :=
  [0xD800 + (cp - 0x10000) / 1024, 0xDC00 + (cp - 0x10000) % 1024]

/-- The string of UTF-8 bytes, as `decipher.update(..., "utf8")` and `final("utf8")`
return it: every maximal ill-formed run of bytes becomes U+FFFD. -/
def utf8Decode : List Byte → JsString
  | [] => []
  | b0 :: rest =>
    if b0.val < 0x80 then b0.val :: utf8Decode rest
    else if 0xC2 ≤ b0.val ∧ b0.val ≤ 0xDF then
      match rest with
      | b1 :: r1 =>
        if 0x80 ≤ b1.val ∧ b1.val ≤ 0xBF then
          ((b0.val - 0xC0) * 64 + (b1.val - 0x80)) :: utf8Decode r1
        else 0xFFFD :: utf8Decode (b1 :: r1)
      | [] => [0xFFFD]
    else if 0xE0 ≤ b0.val ∧ b0.val ≤ 0xEF then
      match rest with
      | b1 :: r1 =>
        if (b0.val = 0xE0 → 0xA0 ≤ b1.val) ∧ (b0.val = 0xED → b1.val ≤ 0x9F) ∧
            0x80 ≤ b1.val ∧ b1.val ≤ 0xBF then
          match r1 with
          | b2 :: r2 =>
            if 0x80 ≤ b2.val ∧ b2.val ≤ 0xBF then
              ((b0.val - 0xE0) * 4096 + (b1.val - 0x80) * 64 + (b2.val - 0x80)) ::
                utf8Decode r2
            else 0xFFFD :: utf8Decode (b2 :: r2)
          | [] => [0xFFFD]
        else 0xFFFD :: utf8Decode (b1 :: r1)
      | [] => [0xFFFD]
    else if 0xF0 ≤ b0.val ∧ b0.val ≤ 0xF4 then
      match rest with
      | b1 :: r1 =>
        if (b0.val = 0xF0 → 0x90 ≤ b1.val) ∧ (b0.val = 0xF4 → b1.val ≤ 0x8F) ∧
            0x80 ≤ b1.val ∧ b1.val ≤ 0xBF then
          match r1 with
          | b2 :: r2 =>
            if 0x80 ≤ b2.val ∧ b2.val ≤ 0xBF then
              match r2 with
              | b3 :: r3 =>
                if 0x80 ≤ b3.val ∧ b3.val ≤ 0xBF then
                  surrogatePair ((b0.val - 0xF0) * 262144 + (b1.val - 0x80) * 4096 +
                    (b2.val - 0x80) * 64 + (b3.val - 0x80)) ++ utf8Decode r3
                else 0xFFFD :: utf8Decode (b3 :: r3)
              | [] => [0xFFFD]
            else 0xFFFD :: utf8Decode (b2 :: r2)
          | [] => [0xFFFD]
        else 0xFFFD :: utf8Decode (b1 :: r1)
      | [] => [0xFFFD]
    else 0xFFFD :: utf8Decode rest

/-- `String.prototype.isWellFormed`: every code unit is below 65536 and every surrogate
is one half of a pair. -/
def isWellFormed : JsString → Bool
  | [] => true
  | c :: rest =>
    if 0xD800 ≤ c ∧ c ≤ 0xDBFF then
      match rest with
      | d :: rest' => decide (0xDC00 ≤ d ∧ d ≤ 0xDFFF) && isWellFormed rest'
      | [] => false
    else decide (c < 0x10000 ∧ ¬ (0xDC00 ≤ c ∧ c ≤ 0xDFFF)) && isWellFormed rest

/-- The process configuration and the `crypto` library the codec runs on. Node's
`aes-256-cbc` cipher is not part of the repository: `cipher key iv bytes` stands for
`createCipheriv` followed by `update` and `final()` on the bytes of the text,
`decipher key iv bytes` for `createDecipheriv` followed by `update` and `final()`; `none`
is a thrown exception (a key or iv of the wrong length, bad padding). -/
structure Crypto where
  ENCRYPTION_KEY : JsString
  cipher : List Byte → List Byte → List Byte → Option (List Byte)
  decipher : List Byte → List Byte → List Byte → Option (List Byte)

/-- The key both functions derive: `Buffer.from(ENCRYPTION_KEY.slice(0, 64), "hex")`. -/
def Crypto.key (E : Crypto) : List Byte := hexDecode (E.ENCRYPTION_KEY.take 64)

/-- `encrypt(text)`, with the value of `crypto.randomBytes(16)` passed as `iv`: the text
is read as `"utf8"`, and the result is `iv.toString("hex") + ":" + encrypted`. -/
def encrypt (E : Crypto) (iv : List Byte) (text : JsString) : Option JsString :=
  match E.cipher E.key iv (utf8Encode text) with
  | none => none
  | some encrypted => some (hexEncode iv ++ [colon] ++ hexEncode encrypted)

/-- `decrypt(text)`: `parts[0]` is the iv and `parts[1]` the ciphertext, both in hex; any
further part is ignored. `decipher.update` throws when `parts[1]` is `undefined` and when
its length is odd. The deciphered bytes are returned as a `"utf8"` string. -/
def decrypt (E : Crypto) (text : JsString) : Option JsString :=
  let parts := split colon text
  let iv := hexDecode (parts.headD [])
  match parts.get? 1 with
  | none => none
  | some encryptedText =>
    if encryptedText.length % 2 = 0 then
      match E.decipher E.key iv (hexDecode encryptedText) with
      | none => none
      | some decrypted => some (utf8Decode decrypted)
    else none

/-! ## Data model -/

/-- Modelled from the spec: `models/Message.js` is not among the sources; the `status`
field is one of `sent | delivered | read`, the three values the server writes. -/
inductive Status
  | sent
  | delivered
  | read
  deriving DecidableEq, Repr

/-- The position of a status in the order `sent < delivered < read`. -/
def Status.rank : Status → Nat
  | .sent => 0
  | .delivered => 1
  | .read => 2

instance : LE Status := ⟨fun a b => a.rank ≤ b.rank⟩

instance : LT Status := ⟨fun a b => a.rank < b.rank⟩

instance (a b : Status) : Decidable (a ≤ b) := inferInstanceAs (Decidable (a.rank ≤ b.rank))

instance (a b : Status) : Decidable (a < b) := inferInstanceAs (Decidable (a.rank < b.rank))

/-- The id of a Socket.IO connection (`socket.id`). Socket.IO generates it as a non-empty
string, so a registered handle is always truthy in `if (receiverSocketId)`. -/
structure SocketId where
  id : Nat
  deriving DecidableEq, Repr

/-- Modelled from the spec: `models/Message.js` is not among the sources; a stored
message has the fields the server reads and writes. `content` is the envelope for the
receiver, `senderContent` the one for the sender, `createdAt` a time in milliseconds. -/
structure Message where
  _id : Nat
  roomId : JsString
  senderId : JsString
  receiverId : JsString
  content : JsString
  senderContent : JsString
  status : Status
  createdAt : Nat
  deriving DecidableEq, Repr

/-- The fields of a `User` document (`models/User.js`) that the socket handlers write. -/
structure User where
  _id : JsString
  isOnline : Bool
  lastSeen : Nat
  deriving DecidableEq, Repr

/-- The object sent as `receive-message` and `message-sent`, and one element of the
response of `GET /api/messages/:roomId`; `content` is plaintext. -/
structure MessagePayload where
  _id : Nat
  roomId : JsString
  senderId : JsString
  receiverId : JsString
  content : JsString
  status : Status
  createdAt : Nat
  deriving DecidableEq, Repr

/-- The payload of `send-message`. -/
structure SendData where
  roomId : JsString
  senderId : JsString
  receiverId : JsString
  content : JsString
  deriving DecidableEq, Repr

/-- The payload of `message-delivered`. -/
structure DeliveredData where
  messageId : Nat
  senderId : JsString
  deriving DecidableEq, Repr

/-- The payload of `messages-read`. -/
structure ReadData where
  roomId : JsString
  userId : JsString
  senderId : JsString
  deriving DecidableEq, Repr

/-- The payload of `typing` and `stop-typing`. -/
structure TypingData where
  senderId : JsString
  receiverId : JsString
  deriving DecidableEq, Repr

/-- An event the server sends to clients. -/
inductive Event
  | userStatusOnline (userId : JsString)
  | userStatusOffline (userId : JsString) (lastSeen : Nat)
  | receiveMessage (p : MessagePayload)
  | messageSent (p : MessagePayload)
  | messageError
  | messageStatusUpdate (messageId : Nat) (status : Status)
  | messagesReadUpdate (roomId : JsString)
  | userTyping (data : TypingData)
  | userStopTyping (data : TypingData)
  deriving DecidableEq, Repr

/-- One emission: `socket.emit` and `io.to(id).emit` address one connection, `io.emit`
addresses all. -/
inductive Emit
  | toSocket (target : SocketId) (e : Event)
  | broadcast (e : Event)
  deriving DecidableEq, Repr

/-- The state the handlers share: the `activeUsers` map in insertion order, the `User`
collection and the `Message` collection. -/
structure ServerState where
  activeUsers : List (JsString × SocketId)
  users : List User
  messages : List Message
  deriving DecidableEq, Repr

/-- The state at start-up with an empty database. -/
def ServerState.init : ServerState := ⟨[], [], []⟩

/-! ## The `activeUsers` map -/

/-- `Map.prototype.get`. -/
def mapGet : List (JsString × SocketId) → JsString → Option SocketId
  | [], _ => none
  | (k, v) :: rest, key => if k = key then some v else mapGet rest key

/-- `Map.prototype.set`: an existing key keeps its position, a new key goes last. -/
def mapSet : List (JsString × SocketId) → JsString → SocketId → List (JsString × SocketId)
  | [], key, value => [(key, value)]
  | (k, v) :: rest, key, value =>
    if k = key then (key, value) :: rest else (k, v) :: mapSet rest key value

/-- `Map.prototype.delete`. -/
def mapDelete : List (JsString × SocketId) → JsString → List (JsString × SocketId)
  | [], _ => []
  | (k, v) :: rest, key => if k = key then rest else (k, v) :: mapDelete rest key

/-! ## Database operations -/

/-- `User.findByIdAndUpdate(userId, { isOnline, lastSeen })`: the document with that id,
if there is one, gets both fields. -/
def updateUser : List User → JsString → Bool → Nat → List User
  | [], _, _, _ => []
  | u :: rest, userId, isOnline, lastSeen =>
    if u._id = userId then { u with isOnline := isOnline, lastSeen := lastSeen } :: rest
    else u :: updateUser rest userId isOnline lastSeen

/-- The `isOnline` flag of a user's record, if the user exists. -/
def isOnline : List User → JsString → Option Bool
  | [], _ => none
  | u :: rest, userId => if u._id = userId then some u.isOnline else isOnline rest userId

/-- The `lastSeen` time of a user's record, if the user exists. -/
def lastSeen : List User → JsString → Option Nat
  | [], _ => none
  | u :: rest, userId => if u._id = userId then some u.lastSeen else lastSeen rest userId

/-- An update of the `status` of the document with the given id, if there is one:
`Message.findByIdAndUpdate(id, { status })`, and `message.save()` of a stored document
whose `status` was assigned. No condition on the current status is part of the query. -/
def updateStatusById : List Message → Nat → Status → List Message
  | [], _, _ => []
  | m :: rest, id, status =>
    if m._id = id then { m with status := status } :: rest
    else m :: updateStatusById rest id status

/-- The bulk update of both read-marking paths,
`Message.updateMany({ roomId, receiverId, status: { $ne: "read" } }, { status: "read" })`. -/
def updateManyRead (messages : List Message) (roomId receiverId : JsString) : List Message :=
  messages.map fun m =>
    if m.roomId = roomId ∧ m.receiverId = receiverId ∧ m.status ≠ Status.read then
      { m with status := Status.read }
    else m

/-! ## Socket handlers -/

/-- The handler of `user-connected`, run on the connection `socketId` at time `now`. The
registry is written first; when the database update fails (`dbOk = false`) the `await`
rejects and nothing is broadcast. -/
def userConnected (s : ServerState) (socketId : SocketId) (userId : JsString) (now : Nat)
    (dbOk : Bool) : ServerState × List Emit :=
  let activeUsers := mapSet s.activeUsers userId socketId
  if dbOk then
    ({ s with activeUsers := activeUsers, users := updateUser s.users userId true now },
      [Emit.broadcast (Event.userStatusOnline userId)])
  else ({ s with activeUsers := activeUsers }, [])

/-- What one run of `send-message` takes from its environment: the `_id` and `createdAt`
the new document gets, the two values `crypto.randomBytes(16)` returns, and whether the
first and the second `message.save()` succeed. -/
structure SendEnv where
  newId : Nat
  createdAt : Nat
  iv1 : List Byte
  iv2 : List Byte
  save1 : Bool
  save2 : Bool

/-- The document `new Message({ ... })` of `send-message`, with the two envelopes. -/
def newMessage (data : SendData) (env : SendEnv)
    (encryptedContent encryptedSenderContent : JsString) : Message :=
  { _id := env.newId, roomId := data.roomId, senderId := data.senderId,
    receiverId := data.receiverId, content := encryptedContent,
    senderContent := encryptedSenderContent, status := Status.sent,
    createdAt := env.createdAt }

/-- The object `send-message` emits as `receive-message` and as `message-sent`: the
request's own fields and plaintext `content`, with `message.status` at that time. -/
def sentPayload (data : SendData) (env : SendEnv) (status : Status) : MessagePayload :=
  { _id := env.newId, roomId := data.roomId, senderId := data.senderId,
    receiverId := data.receiverId, content := data.content, status := status,
    createdAt := env.createdAt }

/-- The handler of `send-message`, run on the connection `socketId`. Every exception
inside the `try` block (a failing `encrypt`, a failing `save`) ends in the `catch`, which
emits `message-error` to the sender; what was written before stays written. The first
`save` is an insert, which the unique index on `_id` also fails when the id is taken. -/
def sendMessage (E : Crypto) (s : ServerState) (socketId : SocketId) (data : SendData)
    (env : SendEnv) : ServerState × List Emit :=
  match encrypt E env.iv1 data.content, encrypt E env.iv2 data.content with
  | some encryptedContent, some encryptedSenderContent =>
    if env.save1 = true ∧ ∀ m ∈ s.messages, m._id ≠ env.newId then
      match mapGet s.activeUsers data.receiverId with
      | some receiverSocketId =>
        if env.save2 = true then
          ({ s with
              messages := updateStatusById
                (s.messages ++ [newMessage data env encryptedContent encryptedSenderContent])
                env.newId Status.delivered },
            [Emit.toSocket receiverSocketId
               (Event.receiveMessage (sentPayload data env Status.delivered)),
             Emit.toSocket socketId (Event.messageSent (sentPayload data env Status.delivered))])
        else
          ({ s with
              messages :=
                s.messages ++ [newMessage data env encryptedContent encryptedSenderContent] },
            [Emit.toSocket socketId Event.messageError])
      | none =>
        ({ s with
            messages :=
              s.messages ++ [newMessage data env encryptedContent encryptedSenderContent] },
          [Emit.toSocket socketId (Event.messageSent (sentPayload data env Status.sent))])
    else (s, [Emit.toSocket socketId Event.messageError])
  | _, _ => (s, [Emit.toSocket socketId Event.messageError])

/-- The handler of `message-delivered`; with `dbOk = false` the update throws and the
`catch` only logs. -/
def messageDelivered (s : ServerState) (data : DeliveredData) (dbOk : Bool) :
    ServerState × List Emit :=
  if dbOk then
    ({ s with messages := updateStatusById s.messages data.messageId Status.delivered },
      match mapGet s.activeUsers data.senderId with
      | some senderSocketId =>
        [Emit.toSocket senderSocketId
          (Event.messageStatusUpdate data.messageId Status.delivered)]
      | none => [])
  else (s, [])

/-- The handler of `messages-read`; the reader is `data.userId`. -/
def messagesRead (s : ServerState) (data : ReadData) (dbOk : Bool) :
    ServerState × List Emit :=
  if dbOk then
    ({ s with messages := updateManyRead s.messages data.roomId data.userId },
      match mapGet s.activeUsers data.senderId with
      | some senderSocketId =>
        [Emit.toSocket senderSocketId (Event.messagesReadUpdate data.roomId)]
      | none => [])
  else (s, [])

/-- The handler of `typing`. -/
def typing (s : ServerState) (data : TypingData) : ServerState × List Emit :=
  match mapGet s.activeUsers data.receiverId with
  | some receiverSocketId => (s, [Emit.toSocket receiverSocketId (Event.userTyping data)])
  | none => (s, [])

/-- The handler of `stop-typing`. -/
def stopTyping (s : ServerState) (data : TypingData) : ServerState × List Emit :=
  match mapGet s.activeUsers data.receiverId with
  | some receiverSocketId =>
    (s, [Emit.toSocket receiverSocketId (Event.userStopTyping data)])
  | none => (s, [])

/-- The handler of `disconnect` of the connection `socketId` at time `now`: the first
entry of `activeUsers` whose value is this connection is deleted, its user is recorded
offline and the status is broadcast; the loop ends there. With `dbOk = false` the database
update rejects after the entry was deleted. -/
def disconnect (s : ServerState) (socketId : SocketId) (now : Nat) (dbOk : Bool) :
    ServerState × List Emit :=
  match s.activeUsers.find? (fun entry => entry.2 = socketId) with
  | some (userId, _) =>
    let activeUsers := mapDelete s.activeUsers userId
    if dbOk then
      ({ s with activeUsers := activeUsers, users := updateUser s.users userId false now },
        [Emit.broadcast (Event.userStatusOffline userId now)])
    else ({ s with activeUsers := activeUsers }, [])
  | none => (s, [])

/-! ## HTTP routes -/

/-- The outcome of a route: a JSON body, or the status 500 of its `catch`. -/
inductive HttpResult (α : Type)
  | ok (body : α)
  | serverError
  deriving DecidableEq, Repr

/-- The body of the `map` callback of `GET /api/messages/:roomId` for one message: the
sender's envelope for the sender, the receiver's envelope for everybody else. -/
def decryptMessage (E : Crypto) (reqUserId : JsString) (msg : Message) :
    Option MessagePayload :=
  match (if msg.senderId = reqUserId then decrypt E msg.senderContent
         else decrypt E msg.content) with
  | none => none
  | some content =>
    some { _id := msg._id, roomId := msg.roomId, senderId := msg.senderId,
           receiverId := msg.receiverId, content := content, status := msg.status,
           createdAt := msg.createdAt }

/-- The call `messages.map(...)` of the route: the first callback that throws ends it. -/
def decryptAll (E : Crypto) (reqUserId : JsString) : List Message → Option (List MessagePayload)
  | [] => some []
  | msg :: rest =>
    match decryptMessage E reqUserId msg with
    | none => none
    | some p =>
      match decryptAll E reqUserId rest with
      | none => none
      | some ps => some (p :: ps)

/-- The query `Message.find({ roomId }).sort({ createdAt: 1 })`. -/
def findRoom (messages : List Message) (roomId : JsString) : List Message :=
  (messages.filter fun m => m.roomId = roomId).insertionSort
    fun a b => a.createdAt ≤ b.createdAt

/-- The route `GET /api/messages/:roomId` for the authenticated user `reqUserId`. -/
def getMessages (E : Crypto) (s : ServerState) (roomId reqUserId : JsString) (dbOk : Bool) :
    HttpResult (List MessagePayload) :=
  if dbOk then
    match decryptAll E reqUserId (findRoom s.messages roomId) with
    | some decryptedMessages => HttpResult.ok decryptedMessages
    | none => HttpResult.serverError
  else HttpResult.serverError

/-- The route `PUT /api/messages/read/:roomId` for the authenticated user `reqUserId`;
the body of the successful response is `{ success: true }`. -/
def putMessagesRead (s : ServerState) (roomId reqUserId : JsString) (dbOk : Bool) :
    ServerState × HttpResult Bool :=
  if dbOk then
    ({ s with messages := updateManyRead s.messages roomId reqUserId }, HttpResult.ok true)
  else (s, HttpResult.serverError)

/-! ## The server as a transition system -/

/-- One event the server handles, with what the handler takes from its environment. -/
inductive ServerEvent
  | userConnected (socketId : SocketId) (userId : JsString) (now : Nat) (dbOk : Bool)
  | sendMessage (socketId : SocketId) (data : SendData) (env : SendEnv)
  | messageDelivered (data : DeliveredData) (dbOk : Bool)
  | messagesRead (data : ReadData) (dbOk : Bool)
  | putMessagesRead (roomId reqUserId : JsString) (dbOk : Bool)
  | typing (data : TypingData)
  | stopTyping (data : TypingData)
  | disconnect (socketId : SocketId) (now : Nat) (dbOk : Bool)

/-- The state after one event. -/
def step (E : Crypto) (s : ServerState) : ServerEvent → ServerState
  | .userConnected socketId userId now dbOk => (userConnected s socketId userId now dbOk).1
  | .sendMessage socketId data env => (sendMessage E s socketId data env).1
  | .messageDelivered data dbOk => (messageDelivered s data dbOk).1
  | .messagesRead data dbOk => (messagesRead s data dbOk).1
  | .putMessagesRead roomId reqUserId dbOk => (putMessagesRead s roomId reqUserId dbOk).1
  | .typing data => (typing s data).1
  | .stopTyping data => (stopTyping s data).1
  | .disconnect socketId now dbOk => (disconnect s socketId now dbOk).1

/-- The state after a sequence of events, each handled to completion. -/
def run (E : Crypto) (s : ServerState) (events : List ServerEvent) : ServerState :=
  events.foldl (step E) s

/-! ## Client (`Dashboard.jsx`) -/

/-- The code units `String.prototype.trim` removes: white space and line terminators. -/
def isWhiteSpace (c : Nat) : Bool :=
  c = 9 || c = 10 || c = 11 || c = 12 || c = 13 || c = 32 || c = 160 || c = 5760 ||
    (8192 ≤ c && c ≤ 8202) || c = 8232 || c = 8233 || c = 8239 || c = 8287 ||
    c = 12288 || c = 65279

/-- `String.prototype.trim`. -/
def trim (s : JsString) : JsString :=
  ((s.dropWhile isWhiteSpace).reverse.dropWhile isWhiteSpace).reverse

/-- The state `handleSendMessage` reads: the text of the input box, the selected user,
whether the socket is set, and the id of the logged-in user. -/
structure ClientState where
  newMessage : JsString
  selectedUser : Option JsString
  socket : Bool
  currentUserId : JsString
  deriving DecidableEq, Repr

/-- What the client emits on its socket. -/
inductive ClientEmit
  | sendMessage (data : SendData)
  | stopTyping (data : TypingData)
  deriving DecidableEq, Repr

/-- `handleSendMessage`: nothing happens when the trimmed text is empty, no user is
selected or there is no socket; otherwise `send-message` and `stop-typing` are emitted and
the input box is cleared. -/
def handleSendMessage (c : ClientState) : ClientState × List ClientEmit :=
  match c.selectedUser with
  | none => (c, [])
  | some selectedUserId =>
    if trim c.newMessage = [] ∨ c.socket = false then (c, [])
    else
      ({ c with newMessage := [] },
        [ClientEmit.sendMessage
          { roomId := getRoomId c.currentUserId selectedUserId,
            senderId := c.currentUserId, receiverId := selectedUserId,
            content := c.newMessage },
         ClientEmit.stopTyping
          { senderId := c.currentUserId, receiverId := selectedUserId }])

/-! ## Invariants -/

/-- The decipher inverts the cipher under the configured key, for every iv and all bytes
the cipher accepts. -/
def Inverts (E : Crypto) : Prop :=
  ∀ iv bytes ct, E.cipher E.key iv bytes = some ct → E.decipher E.key iv ct = some bytes

/-- Both envelopes of every stored message decrypt. -/
def Decryptable (E : Crypto) (messages : List Message) : Prop :=
  ∀ m ∈ messages, (decrypt E m.content).isSome ∧ (decrypt E m.senderContent).isSome

/-- No user id is a key of `activeUsers` twice, as in every JavaScript `Map`. -/
def KeysDistinct (s : ServerState) : Prop := (s.activeUsers.map Prod.fst).Nodup

/-! ## Concrete values for runs of the model -/

/-- A stand-in for the cipher in concrete runs: the bytes themselves, independent of key
and iv, so that the decipher inverts the cipher. -/
def demoCrypto : Crypto :=
  { ENCRYPTION_KEY := js "000102030405060708090a0b0c0d0e0f101112131415161718191a1b1c1d1e1f"
    cipher := fun _ _ bytes => some bytes
    decipher := fun _ _ bytes => some bytes }

/-- Sixteen bytes `b, b+1, ...`, for use as an initialization vector. -/
def demoIv (b : Nat) : List Byte := (List.range 16).map fun i => Fin.ofNat (b + i)

/-- A stored message from `"alice"` to `"bob"` that `"bob"` has read. -/
def demoReadMessage : Message :=
  { _id := 1, roomId := js "alice-bob", senderId := js "alice", receiverId := js "bob",
    content := [], senderContent := [], status := Status.read, createdAt := 1000 }

/-- A `send-message` request from `"alice"` to `"bob"`. -/
def demoSend : SendData :=
  { roomId := js "alice-bob", senderId := js "alice", receiverId := js "bob",
    content := js "hi" }

/-- An environment of `send-message` in which both saves succeed. -/
def demoEnv : SendEnv :=
  { newId := 1, createdAt := 1000, iv1 := demoIv 0, iv2 := demoIv 16, save1 := true,
    save2 := true }

/-- The payload with which `"bob"` marks the room of `demoSend` read. -/
def demoRead : ReadData :=
  { roomId := js "alice-bob", userId := js "bob", senderId := js "alice" }

/-- A `send-message` request from `"bob"` to `"bob"` whose content is two spaces. -/
def demoBlankSelfSend : SendData :=
  { roomId := js "bob-bob", senderId := js "bob", receiverId := js "bob",
    content := js "  " }

/-- A client with two spaces in the input box and `"bob"` selected. -/
def demoBlankClient : ClientState :=
  { newMessage := js "  ", selectedUser := some (js "bob"), socket := true,
    currentUserId := js "alice" }

/-- A state in which `"bob"` is registered on connection 2. -/
def demoBobOnline : ServerState :=
  { activeUsers := [(js "bob", ⟨2⟩)], users := [⟨js "bob", true, 500⟩], messages := [] }

/-- Two stored messages for `"bob"` in the room `"alice-bob"`, one `sent` and one
`delivered`, and one `sent` message for `"bob"` in another room. -/
def demoInbox : List Message :=
  [{ _id := 1, roomId := js "alice-bob", senderId := js "alice", receiverId := js "bob",
     content := [], senderContent := [], status := Status.sent, createdAt := 1000 },
   { _id := 2, roomId := js "alice-bob", senderId := js "alice", receiverId := js "bob",
     content := [], senderContent := [], status := Status.delivered, createdAt := 1001 },
   { _id := 3, roomId := js "bob-carol", senderId := js "carol", receiverId := js "bob",
     content := [], senderContent := [], status := Status.sent, createdAt := 1002 }]

/-- A state with the user `"alice"` in the database, not connected. -/
def demoAliceKnown : ServerState :=
  { activeUsers := [], users := [⟨js "alice", false, 100⟩], messages := [] }

/-- A state with the users `"alice"` and `"bob"` in the database, nobody connected. -/
def demoTwoUsers : ServerState :=
  { activeUsers := [], users := [⟨js "alice", false, 100⟩, ⟨js "bob", false, 200⟩],
    messages := [] }

/-- A state in which `"alice"` is registered on connection 1 and recorded online. -/
def demoAliceOnline : ServerState :=
  { activeUsers := [(js "alice", ⟨1⟩)], users := [⟨js "alice", true, 100⟩], messages := [] }

/-- Whether the database update of a presence event succeeds, so that its handler runs
to its end; the other events write no presence. -/
def ServerEvent.presenceRecorded : ServerEvent → Bool
  | .userConnected _ _ _ dbOk => dbOk
  | .disconnect _ _ dbOk => dbOk
  | _ => true

/-- The online flag of every user record agrees with the registry: the flag is true
exactly when `activeUsers` has an entry for the user. -/
def PresenceConsistent (s : ServerState) : Prop :=
  ∀ u, (isOnline s.users u).isSome →
    (isOnline s.users u = some true ↔ (mapGet s.activeUsers u).isSome)

/-- The user `"alice"` connects on connection 1 and again on connection 2, `"bob"` on
connection 3, and connection 2 closes. -/
def demoPresenceEvents : List ServerEvent :=
  [ServerEvent.userConnected ⟨1⟩ (js "alice") 10 true,
   ServerEvent.userConnected ⟨2⟩ (js "alice") 20 true,
   ServerEvent.userConnected ⟨3⟩ (js "bob") 30 true,
   ServerEvent.disconnect ⟨2⟩ 40 true]

/-- A store whose room `"alice-bob"` holds a message with two proper envelopes of `"hi"`
and a message whose envelopes have no separator. -/
def demoCorruptRoom : ServerState :=
  { activeUsers := [], users := [],
    messages :=
      [{ _id := 1, roomId := js "alice-bob", senderId := js "alice", receiverId := js "bob",
         content := hexEncode (demoIv 0) ++ [colon] ++ hexEncode [104, 105],
         senderContent := hexEncode (demoIv 16) ++ [colon] ++ hexEncode [104, 105],
         status := Status.sent, createdAt := 1000 },
       { _id := 2, roomId := js "alice-bob", senderId := js "alice", receiverId := js "bob",
         content := js "zz", senderContent := js "zz", status := Status.sent,
         createdAt := 2000 }] }

/-- The fields of a stored message other than its two envelopes. -/
def Message.fields (m : Message) : Nat × JsString × JsString × JsString × Status × Nat :=
  (m._id, m.roomId, m.senderId, m.receiverId, m.status, m.createdAt)

/-- The fields of a returned message other than its content. -/
def MessagePayload.fields (p : MessagePayload) :
    Nat × JsString × JsString × JsString × Status × Nat :=
  (p._id, p.roomId, p.senderId, p.receiverId, p.status, p.createdAt)

/-- Three `send-message` requests handled in turn: `"alice"` to `"bob"` at time 2000,
`"carol"` to `"bob"` at time 1500, and `"alice"` to `"bob"` again with time 1000. -/
def demoThreeSends : List ServerEvent :=
  [ServerEvent.sendMessage ⟨1⟩ demoSend { demoEnv with newId := 1, createdAt := 2000 },
   ServerEvent.sendMessage ⟨3⟩
     { roomId := js "bob-carol", senderId := js "carol", receiverId := js "bob",
       content := js "yo" }
     { demoEnv with newId := 2, createdAt := 1500 },
   ServerEvent.sendMessage ⟨1⟩ demoSend { demoEnv with newId := 3, createdAt := 1000 }]

/-- A `send-message` request from `"alice"` to `"bob"` that names the room of two other
users. -/
def demoWrongRoomSend : SendData :=
  { roomId := js "carol-dave", senderId := js "alice", receiverId := js "bob",
    content := js "hi" }

/-- A client of `"alice"` with `"hi"` in the input box and `"bob"` selected. -/
def demoClient : ClientState :=
  { newMessage := js "hi", selectedUser := some (js "bob"), socket := true,
    currentUserId := js "alice" }

/-- The envelope of `"hi"` under the stand-in cipher with the iv `demoIv 0`. -/
def demoEnvelope : JsString := hexEncode (demoIv 0) ++ [colon] ++ hexEncode [104, 105]

/-- An environment of `send-message` in which the insert succeeds and the second save,
the update to `delivered`, fails. -/
def demoEnvSecondSaveFails : SendEnv := { demoEnv with save2 := false }

/-! ## The route `GET /api/users` -/

/-- One element of the response of `GET /api/users`: the user document, the number of
unread messages from that user to the requester, and the `createdAt` of the last message
of their room (`null` when the room has none). -/
structure UserListEntry where
  user : User
  unreadCount : Nat
  lastMessage : Option Nat
  deriving DecidableEq, Repr

/-- The query `Message.countDocuments({ senderId, receiverId, status: { $ne: "read" } })`. -/
def countUnread (messages : List Message) (senderId receiverId : JsString) : Nat :=
  (messages.filter fun m =>
    decide (m.senderId = senderId ∧ m.receiverId = receiverId ∧ m.status ≠ Status.read)).length

/-- The greatest `createdAt` of a list of messages, if it has one. -/
def latestCreatedAt : List Message → Option Nat
  | [] => none
  | m :: rest =>
    match latestCreatedAt rest with
    | none => some m.createdAt
    | some t => some (max m.createdAt t)

/-- The `createdAt` of `Message.findOne({ roomId: { $in: [roomId] } }).sort({ createdAt: -1 })`,
the only field of the last message that the route returns. -/
def findLastMessage (messages : List Message) (roomId : JsString) : Option Nat :=
  latestCreatedAt (messages.filter fun m => m.roomId = roomId)

/-- The value `timeA` (`timeB`) of the comparator: the time of the last message, or 0. -/
def UserListEntry.time (e : UserListEntry) : Nat :=
  match e.lastMessage with
  | some createdAt => createdAt
  | none => 0

/-- The comparator of `usersWithData.sort`: `timeB - timeA`. The comparison of the unread
counts is commented out in the source. -/
def compareUsers (a b : UserListEntry) : Int := (b.time : Int) - (a.time : Int)

/-- The array `usersWithData` before it is sorted: one entry per user other than the
requester, in the order of `User.find`. -/
def usersWithData (s : ServerState) (reqUserId : JsString) : List UserListEntry :=
  (s.users.filter fun u => u._id ≠ reqUserId).map fun user =>
    { user := user,
      unreadCount := countUnread s.messages user._id reqUserId,
      lastMessage := findLastMessage s.messages (serverRoomId reqUserId user._id) }

/-- The route `GET /api/users` for the authenticated user `reqUserId`: `usersWithData`
sorted, stably, with `compareUsers`. -/
def getUsers (s : ServerState) (reqUserId : JsString) (dbOk : Bool) :
    HttpResult (List UserListEntry) :=
  if dbOk then
    HttpResult.ok ((usersWithData s reqUserId).insertionSort fun a b => compareUsers a b ≤ 0)
  else HttpResult.serverError

/-- A database with `"alice"`, `"bob"` and `"carol"`: an unread message from `"bob"` to
`"alice"` at time 1000 and a read message from `"carol"` to `"alice"` at time 2000. -/
def demoChatList : ServerState :=
  { activeUsers := [],
    users := [⟨js "alice", false, 1⟩, ⟨js "bob", false, 2⟩, ⟨js "carol", false, 3⟩],
    messages :=
      [{ _id := 1, roomId := js "alice-bob", senderId := js "bob", receiverId := js "alice",
         content := [], senderContent := [], status := Status.sent, createdAt := 1000 },
       { _id := 2, roomId := js "alice-carol", senderId := js "carol",
         receiverId := js "alice", content := [], senderContent := [],
         status := Status.read, createdAt := 2000 }] }

/-- The users `"alice"` and then `"bob"` register on connection 7, which then closes. -/
def demoSharedHandleEvents : List ServerEvent :=
  [ServerEvent.userConnected ⟨7⟩ (js "alice") 10 true,
   ServerEvent.userConnected ⟨7⟩ (js "bob") 20 true,
   ServerEvent.disconnect ⟨7⟩ 30 true]

/-- A `send-message` request from `"alice"` to `"bob"` whose content is the single code
unit `U+D83D`, an unpaired surrogate. -/
def demoLoneSurrogateSend : SendData :=
  { roomId := js "alice-bob", senderId := js "alice", receiverId := js "bob",
    content := [0xD83D] }

/-- An environment of `send-message` that assigns the id 3. -/
def demoEnvThird : SendEnv := { demoEnv with newId := 3, createdAt := 3000 }

/-! ## Theorems -/

theorem jsLess_asymm : ∀ a b : JsString, jsLess a b = true → jsLess b a = false
  | [], [] => by simp [jsLess]
  | [], _ :: _ => by simp [jsLess]
  | _ :: _, [] => by simp [jsLess]
  | a :: as, b :: bs => by
    intro h
    simp only [jsLess] at h ⊢
    by_cases hab : a < b
    · have hba : ¬ b < a := Nat.lt_asymm hab
      simp [hab, hba]
    · by_cases hba : b < a
      · simp [hab, hba] at h
      · simp only [hab, hba, if_false] at h ⊢
        exact jsLess_asymm as bs h

theorem jsLess_total : ∀ a b : JsString, jsLess a b = false → jsLess b a = false → a = b
  | [], [] => by simp
  | [], _ :: _ => by simp [jsLess]
  | _ :: _, [] => by simp [jsLess]
  | a :: as, b :: bs => by
    intro h1 h2
    simp only [jsLess] at h1 h2
    by_cases hab : a < b
    · simp [hab] at h1
    · by_cases hba : b < a
      · simp [hba] at h2
      · simp only [hab, hba, if_false] at h1 h2
        have e : a = b := Nat.le_antisymm (Nat.le_of_not_lt hba) (Nat.le_of_not_lt hab)
        rw [e, jsLess_total as bs h1 h2]

theorem getRoomId_eq (a b : JsString) :
    getRoomId a b = if jsLess b a then b ++ dash ++ a else a ++ dash ++ b := by
  unfold getRoomId
  cases hba : jsLess b a with
  | true =>
    have hab := jsLess_asymm b a hba
    simp [jsSort, sortInsert, sortCompare, hab, hba, join]
  | false =>
    cases hab : jsLess a b <;> simp [jsSort, sortInsert, sortCompare, hab, hba, join]

/-- C1: the room id of a pair does not depend on the order of the two identities, also
when both are the same identity, and the expression of `GET /api/users` computes the
same value as `getRoomId`. -/
theorem getRoomId_symmetric (A B : JsString) :
    getRoomId A B = getRoomId B A ∧ serverRoomId A B = getRoomId A B ∧
      serverRoomId A B = serverRoomId B A := by
  have key : getRoomId A B = getRoomId B A := by
    rw [getRoomId_eq, getRoomId_eq]
    cases hba : jsLess B A with
    | true => simp [jsLess_asymm B A hba]
    | false =>
      cases hab : jsLess A B with
      | true => simp
      | false => simp [jsLess_total A B hab hba]
  exact ⟨key, rfl, key⟩

/-! ### Codec -/

theorem hexDigit_ne_colon (n : Nat) (h : n < 16) : hexDigit n ≠ colon := by
  unfold hexDigit colon
  split <;> omega

theorem hexVal_hexDigit (n : Nat) (h : n < 16) : hexVal (hexDigit n) = some n := by
  unfold hexDigit
  by_cases h10 : n < 10
  · have hm : (48 + n) % 256 = 48 + n := Nat.mod_eq_of_lt (by omega)
    have h1 : 48 ≤ 48 + n ∧ 48 + n ≤ 57 := by omega
    simp [hexVal, h10, hm, h1]
  · have hm : (87 + n) % 256 = 87 + n := Nat.mod_eq_of_lt (by omega)
    have h1 : ¬ (48 ≤ 87 + n ∧ 87 + n ≤ 57) := by omega
    have h2 : 97 ≤ 87 + n ∧ 87 + n ≤ 102 := by omega
    simp [hexVal, h10, hm, h1, h2]

theorem colon_not_mem_hexEncode : ∀ bs : List Byte, colon ∉ hexEncode bs
  | [] => by simp [hexEncode]
  | b :: bs => by
    have h1 := hexDigit_ne_colon (b.val / 16) (by omega)
    have h2 := hexDigit_ne_colon (b.val % 16) (by omega)
    have ih := colon_not_mem_hexEncode bs
    simp only [hexEncode, List.mem_cons, not_or]
    exact ⟨fun e => h1 e.symm, fun e => h2 e.symm, ih⟩

theorem hexDecode_hexEncode : ∀ bs : List Byte, hexDecode (hexEncode bs) = bs
  | [] => by simp [hexEncode, hexDecode]
  | b :: bs => by
    have h1 := hexVal_hexDigit (b.val / 16) (by omega)
    have h2 := hexVal_hexDigit (b.val % 16) (by omega)
    have hb : (16 * (b.val / 16) + b.val % 16) % 256 = b.val := by
      rw [Nat.div_add_mod]
      exact Nat.mod_eq_of_lt b.isLt
    simp only [hexEncode, hexDecode, h1, h2, hexDecode_hexEncode bs]
    congr 1
    exact Fin.ext hb

theorem hexEncode_length_even : ∀ bs : List Byte, (hexEncode bs).length % 2 = 0
  | [] => by simp [hexEncode]
  | b :: bs => by
    have ih := hexEncode_length_even bs
    simp only [hexEncode, List.length_cons]
    omega

theorem split_of_not_mem (sep : Nat) : ∀ a : JsString, sep ∉ a → split sep a = [a]
  | [], _ => by simp [split]
  | c :: cs, h => by
    have hc : c ≠ sep := fun e => h (by simp [e])
    have hcs : sep ∉ cs := fun m => h (List.mem_cons_of_mem _ m)
    simp [split, hc, split_of_not_mem sep cs hcs]

theorem split_append_sep (sep : Nat) (b : JsString) :
    ∀ a : JsString, sep ∉ a → split sep (a ++ sep :: b) = a :: split sep b
  | [], _ => by simp [split]
  | c :: cs, h => by
    have hc : c ≠ sep := fun e => h (by simp [e])
    have hcs : sep ∉ cs := fun m => h (List.mem_cons_of_mem _ m)
    simp [split, hc, split_append_sep sep b cs hcs]

theorem split_envelope (iv ct : List Byte) :
    split colon (hexEncode iv ++ [colon] ++ hexEncode ct) = [hexEncode iv, hexEncode ct] := by
  rw [List.append_assoc, List.singleton_append,
    split_append_sep colon _ _ (colon_not_mem_hexEncode iv),
    split_of_not_mem colon _ (colon_not_mem_hexEncode ct)]

theorem byte_val (n : Nat) (h : n < 256) : (byte n).val = n := Nat.mod_eq_of_lt h

theorem utf8Decode_one (x : Byte) (tail : List Byte) (hx : x.val < 0x80) :
    utf8Decode (x :: tail) = x.val :: utf8Decode tail := by
  rw [utf8Decode.eq_def]
  simp only [if_pos hx]

theorem utf8Decode_two (x y : Byte) (tail : List Byte) (hx : 0xC2 ≤ x.val ∧ x.val ≤ 0xDF)
    (hy : 0x80 ≤ y.val ∧ y.val ≤ 0xBF) :
    utf8Decode (x :: y :: tail) = ((x.val - 0xC0) * 64 + (y.val - 0x80)) :: utf8Decode tail := by
  have h0 : ¬ x.val < 0x80 := by omega
  rw [utf8Decode.eq_def]
  simp only [if_neg h0, if_pos hx, if_pos hy]

theorem utf8Decode_three (x y z : Byte) (tail : List Byte)
    (hx : 0xE0 ≤ x.val ∧ x.val ≤ 0xEF)
    (hy : (x.val = 0xE0 → 0xA0 ≤ y.val) ∧ (x.val = 0xED → y.val ≤ 0x9F) ∧
      0x80 ≤ y.val ∧ y.val ≤ 0xBF)
    (hz : 0x80 ≤ z.val ∧ z.val ≤ 0xBF) :
    utf8Decode (x :: y :: z :: tail) =
      ((x.val - 0xE0) * 4096 + (y.val - 0x80) * 64 + (z.val - 0x80)) :: utf8Decode tail := by
  have h0 : ¬ x.val < 0x80 := by omega
  have h1 : ¬ (0xC2 ≤ x.val ∧ x.val ≤ 0xDF) := by omega
  rw [utf8Decode.eq_def]
  simp only [if_neg h0, if_neg h1, if_pos hx, if_pos hy, if_pos hz]

theorem utf8Decode_four (x y z w : Byte) (tail : List Byte)
    (hx : 0xF0 ≤ x.val ∧ x.val ≤ 0xF4)
    (hy : (x.val = 0xF0 → 0x90 ≤ y.val) ∧ (x.val = 0xF4 → y.val ≤ 0x8F) ∧
      0x80 ≤ y.val ∧ y.val ≤ 0xBF)
    (hz : 0x80 ≤ z.val ∧ z.val ≤ 0xBF) (hw : 0x80 ≤ w.val ∧ w.val ≤ 0xBF) :
    utf8Decode (x :: y :: z :: w :: tail) =
      surrogatePair ((x.val - 0xF0) * 262144 + (y.val - 0x80) * 4096 +
        (z.val - 0x80) * 64 + (w.val - 0x80)) ++ utf8Decode tail := by
  have h0 : ¬ x.val < 0x80 := by omega
  have h1 : ¬ (0xC2 ≤ x.val ∧ x.val ≤ 0xDF) := by omega
  have h2 : ¬ (0xE0 ≤ x.val ∧ x.val ≤ 0xEF) := by omega
  rw [utf8Decode.eq_def]
  simp only [if_neg h0, if_neg h1, if_neg h2, if_pos hx, if_pos hy, if_pos hz, if_pos hw]


theorem utf8Decode_replacement (tail : List Byte) :
    utf8Decode (replacementBytes ++ tail) = 0xFFFD :: utf8Decode tail := by
  have h := utf8Decode_three (byte 0xEF) (byte 0xBF) (byte 0xBD) tail (by decide) (by decide)
    (by decide)
  simpa [replacementBytes] using h

theorem utf8_head_single (c : Nat) (rest : JsString) (hns : ¬ (0xD800 ≤ c ∧ c ≤ 0xDBFF))
    (hnl : ¬ (0xDC00 ≤ c ∧ c ≤ 0xDFFF)) (hlt : c < 0x10000) :
    utf8Decode (utf8Encode (c :: rest)) = c :: utf8Decode (utf8Encode rest) := by
  rw [utf8Encode.eq_def]
  simp only [if_neg hns, if_neg hnl]
  by_cases h1 : c < 0x80
  · simp only [if_pos h1]
    rw [utf8Decode_one _ _ (by rw [byte_val c (by omega)]; exact h1), byte_val c (by omega)]
  · by_cases h2 : c < 0x800
    · simp only [if_neg h1, if_pos h2]
      have v0 := byte_val (0xC0 + c / 64) (by omega)
      have v1 := byte_val (0x80 + c % 64) (by omega)
      rw [utf8Decode_two _ _ _ (by rw [v0]; omega) (by rw [v1]; omega), v0, v1]
      refine congrArg (fun x => x :: utf8Decode (utf8Encode rest)) ?_
      omega
    · simp only [if_neg h1, if_neg h2]
      have v0 := byte_val (0xE0 + c / 4096) (by omega)
      have v1 := byte_val (0x80 + c / 64 % 64) (by omega)
      have v2 := byte_val (0x80 + c % 64) (by omega)
      rw [utf8Decode_three _ _ _ _ (by rw [v0]; omega) (by rw [v0, v1]; omega)
        (by rw [v2]; omega), v0, v1, v2]
      refine congrArg (fun x => x :: utf8Decode (utf8Encode rest)) ?_
      omega

theorem utf8_head_pair (c d : Nat) (rest : JsString) (hc : 0xD800 ≤ c ∧ c ≤ 0xDBFF)
    (hd : 0xDC00 ≤ d ∧ d ≤ 0xDFFF) :
    utf8Decode (utf8Encode (c :: d :: rest)) = c :: d :: utf8Decode (utf8Encode rest) := by
  have h1 : ¬ c < 0x80 := by omega
  have h2 : ¬ c < 0x800 := by omega
  rw [utf8Encode.eq_def]
  simp only [if_neg h1, if_neg h2, if_pos hc, if_pos hd]
  have hcp : codePoint c d = 0x10000 + (c - 0xD800) * 1024 + (d - 0xDC00) := rfl
  generalize codePoint c d = cp at hcp
  have v0 := byte_val (0xF0 + cp / 262144) (by omega)
  have v1 := byte_val (0x80 + cp / 4096 % 64) (by omega)
  have v2 := byte_val (0x80 + cp / 64 % 64) (by omega)
  have v3 := byte_val (0x80 + cp % 64) (by omega)
  rw [utf8Decode_four _ _ _ _ _ (by rw [v0]; omega) (by rw [v0, v1]; omega)
    (by rw [v2]; omega) (by rw [v3]; omega), v0, v1, v2, v3]
  simp only [surrogatePair, List.cons_append, List.nil_append, List.cons.injEq, and_true]
  constructor <;> omega

theorem utf8Decode_utf8Encode :
    ∀ m : JsString, isWellFormed m = true → utf8Decode (utf8Encode m) = m
  | [], _ => rfl
  | [c], h => by
    have hns : ¬ (0xD800 ≤ c ∧ c ≤ 0xDBFF) := by
      intro hc
      simp [isWellFormed, hc] at h
    simp only [isWellFormed, if_neg hns, Bool.and_true, decide_eq_true_eq] at h
    rw [utf8_head_single c [] hns h.2 h.1]
    rfl
  | c :: d :: rest, h => by
    by_cases hc : 0xD800 ≤ c ∧ c ≤ 0xDBFF
    · simp only [isWellFormed, if_pos hc, Bool.and_eq_true, decide_eq_true_eq] at h
      rw [utf8_head_pair c d rest hc h.1, utf8Decode_utf8Encode rest h.2]
    · rw [isWellFormed] at h
      simp only [if_neg hc, Bool.and_eq_true, decide_eq_true_eq] at h
      rw [utf8_head_single c (d :: rest) hc h.1.2 h.1.1, utf8Decode_utf8Encode (d :: rest) h.2]

/-- The hex decoder reads the low byte of a code unit: `U+0130` followed by `"1"` is the
byte 1. -/
theorem hexDecode_low_byte : hexDecode [304, 49] = [byte 1] := by
  decide

/-- The stand-in cipher is inverted by its decipher. -/
theorem demoCrypto_inverts : Inverts demoCrypto := by
  intro iv bytes ct h
  simp only [demoCrypto, Option.some.injEq] at h
  simp only [demoCrypto, h]

theorem decrypt_envelope (E : Crypto) (iv ct : List Byte) :
    decrypt E (hexEncode iv ++ [colon] ++ hexEncode ct) =
      (E.decipher E.key iv ct).map utf8Decode := by
  unfold decrypt
  rw [split_envelope]
  simp only [List.headD_cons, List.get?_cons_succ, List.get?_cons_zero,
    hexDecode_hexEncode, hexEncode_length_even, if_true]
  cases E.decipher E.key iv ct <;> rfl

/-- C4, refuted as stated: the text of the single code unit `U+D83D`, an unpaired
surrogate, is read by `encrypt` as the bytes of `U+FFFD`; the decipher returns exactly the
bytes the cipher was given, and `decrypt(encrypt(m))` is `U+FFFD`, not `m`. -/
theorem decrypt_encrypt_lone_surrogate :
    utf8Encode [0xD83D] = [byte 0xEF, byte 0xBF, byte 0xBD] ∧
      demoCrypto.decipher demoCrypto.key (demoIv 7) [byte 0xEF, byte 0xBF, byte 0xBD] =
        some (utf8Encode [0xD83D]) ∧
      (encrypt demoCrypto (demoIv 7) [0xD83D]).bind (decrypt demoCrypto) = some [0xFFFD] := by
  decide

/-- C4, as the codec behaves: whenever the cipher accepts the key and the drawn iv and the
decipher inverts it on the ciphertext, `encrypt` returns the envelope
`hex(iv) + ":" + hex(ciphertext)`, `split(":")` gives back exactly the two hex parts, and
`decrypt` of the envelope is the text read back from its UTF-8 bytes: the original
plaintext when it is well-formed (no unpaired surrogate). -/
theorem decrypt_encrypt (E : Crypto) (iv : List Byte) (m : JsString) (ct : List Byte)
    (hc : E.cipher E.key iv (utf8Encode m) = some ct)
    (hd : E.decipher E.key iv ct = some (utf8Encode m)) :
    encrypt E iv m = some (hexEncode iv ++ [colon] ++ hexEncode ct) ∧
      split colon (hexEncode iv ++ [colon] ++ hexEncode ct) = [hexEncode iv, hexEncode ct] ∧
      hexDecode (hexEncode iv) = iv ∧ hexDecode (hexEncode ct) = ct ∧
      (encrypt E iv m).bind (decrypt E) = some (utf8Decode (utf8Encode m)) ∧
      (isWellFormed m = true → (encrypt E iv m).bind (decrypt E) = some m) := by
  have he : encrypt E iv m = some (hexEncode iv ++ [colon] ++ hexEncode ct) := by
    simp [encrypt, hc]
  have hb : (encrypt E iv m).bind (decrypt E) = some (utf8Decode (utf8Encode m)) := by
    rw [he, Option.some_bind, decrypt_envelope, hd]
    rfl
  refine ⟨he, split_envelope iv ct, hexDecode_hexEncode iv, hexDecode_hexEncode ct, hb, ?_⟩
  intro hwf
  rw [hb, utf8Decode_utf8Encode m hwf]

/-- C4 at `"hello"` with the stand-in cipher. -/
theorem decrypt_encrypt_witness :
    (encrypt demoCrypto (demoIv 7) (js "hello")).bind (decrypt demoCrypto) =
      some (js "hello") :=
  (decrypt_encrypt demoCrypto (demoIv 7) (js "hello") [104, 101, 108, 108, 111]
    (by decide) (by decide)).2.2.2.2.2 (by decide)

/-! ### Delivery status -/

theorem Status.le_refl (a : Status) : a ≤ a := Nat.le_refl _

theorem Status.le_read (a : Status) : a ≤ Status.read := by
  cases a <;> decide

theorem Status.le_delivered_of_ne_read (a : Status) (h : a ≠ Status.read) :
    a ≤ Status.delivered := by
  cases a
  · decide
  · decide
  · exact absurd rfl h

theorem updateStatusById_split (id : Nat) (status : Status) (m : Message) (post : List Message) :
    ∀ pre : List Message, (∀ x ∈ pre, x._id ≠ id) → m._id = id →
      updateStatusById (pre ++ m :: post) id status = pre ++ { m with status := status } :: post
  | [], _, hm => by simp [updateStatusById, hm]
  | x :: pre, hpre, hm => by
    have hx : x._id ≠ id := hpre x (by simp)
    have ih := updateStatusById_split id status m post pre
      (fun y hy => hpre y (List.mem_cons_of_mem _ hy)) hm
    simp [updateStatusById, hx, ih]

theorem updateStatusById_of_fresh (id : Nat) (status : Status) :
    ∀ l : List Message, (∀ x ∈ l, x._id ≠ id) → updateStatusById l id status = l
  | [], _ => by simp [updateStatusById]
  | x :: l, h => by
    have hx : x._id ≠ id := h x (by simp)
    have ih := updateStatusById_of_fresh id status l (fun y hy => h y (List.mem_cons_of_mem _ hy))
    simp [updateStatusById, hx, ih]

theorem updateStatusById_getElem? (id : Nat) (status : Status) :
    ∀ (l : List Message) (i : Nat) (m : Message), l[i]? = some m →
      (updateStatusById l id status)[i]? = some m ∨
        (m._id = id ∧ (updateStatusById l id status)[i]? = some { m with status := status })
  | [], i, m, h => by simp at h
  | x :: l, i, m, h => by
    by_cases hx : x._id = id
    · simp only [updateStatusById, hx, if_true]
      cases i with
      | zero =>
        simp only [List.getElem?_cons_zero, Option.some.injEq] at h
        subst h
        exact Or.inr ⟨hx, by simp [hx]⟩
      | succ j =>
        simp only [List.getElem?_cons_succ] at h
        exact Or.inl (by simpa using h)
    · simp only [updateStatusById, hx, if_false]
      cases i with
      | zero => exact Or.inl (by simpa using h)
      | succ j =>
        simp only [List.getElem?_cons_succ] at h ⊢
        exact updateStatusById_getElem? id status l j m h

/-- C3, refuted as stated: a message that was sent and then marked `read` through the PUT
route is set back to `delivered` by the `message-delivered` handler, it is not left
`read`. -/
theorem messageDelivered_after_read :
    ((run demoCrypto ServerState.init
        [ServerEvent.sendMessage ⟨1⟩ demoSend demoEnv,
         ServerEvent.putMessagesRead (js "alice-bob") (js "bob") true]).messages.map
        fun m => (m._id, m.status)) = [(1, Status.read)] ∧
      ((messageDelivered
          (run demoCrypto ServerState.init
            [ServerEvent.sendMessage ⟨1⟩ demoSend demoEnv,
             ServerEvent.putMessagesRead (js "alice-bob") (js "bob") true])
          ⟨1, js "alice"⟩ true).1.messages.map fun m => (m._id, m.status)) =
        [(1, Status.delivered)] := by
  decide

/-- C3, as the handler behaves: the first stored message with the acknowledged id gets
status `delivered` whatever its status was (so a `sent` one becomes `delivered` and a
`delivered` one stays so); every other message and every other field is unchanged. -/
theorem messageDelivered_sets_delivered (s : ServerState) (senderId : JsString)
    (pre post : List Message) (m : Message) (hs : s.messages = pre ++ m :: post)
    (hpre : ∀ x ∈ pre, x._id ≠ m._id) :
    (messageDelivered s ⟨m._id, senderId⟩ true).1.messages =
      pre ++ { m with status := Status.delivered } :: post := by
  simp only [messageDelivered, if_true, hs]
  exact updateStatusById_split m._id Status.delivered m post pre hpre rfl

/-- C3 at a store of one `read` message. -/
theorem messageDelivered_sets_delivered_witness :
    (messageDelivered ⟨[], [], [demoReadMessage]⟩ ⟨demoReadMessage._id, js "alice"⟩ true).1.messages =
      [] ++ { demoReadMessage with status := Status.delivered } :: [] :=
  messageDelivered_sets_delivered ⟨[], [], [demoReadMessage]⟩ (js "alice") [] []
    demoReadMessage rfl (by simp)

theorem updateManyRead_getElem? (l : List Message) (roomId receiverId : JsString) (i : Nat)
    (m : Message) (h : l[i]? = some m) :
    (updateManyRead l roomId receiverId)[i]? =
      some (if m.roomId = roomId ∧ m.receiverId = receiverId ∧ m.status ≠ Status.read then
        { m with status := Status.read } else m) := by
  simp [updateManyRead, List.getElem?_map, h]

theorem updateManyRead_monotone (l : List Message) (roomId receiverId : JsString) (i : Nat)
    (m : Message) (h : l[i]? = some m) :
    ∃ m', (updateManyRead l roomId receiverId)[i]? = some m' ∧ m'._id = m._id ∧
      m.status ≤ m'.status := by
  refine ⟨_, updateManyRead_getElem? l roomId receiverId i m h, ?_⟩
  split
  · exact ⟨rfl, Status.le_read _⟩
  · exact ⟨rfl, Status.le_refl _⟩

theorem sendMessage_monotone (E : Crypto) (s : ServerState) (socketId : SocketId)
    (data : SendData) (env : SendEnv) (i : Nat) (m : Message) (h : s.messages[i]? = some m) :
    (sendMessage E s socketId data env).1.messages[i]? = some m := by
  have happ : ∀ x : Message, (s.messages ++ [x])[i]? = some m := by
    intro x
    rw [List.getElem?_append_left (List.getElem?_eq_some.mp h).1]
    exact h
  unfold sendMessage
  split
  · split
    · rename_i hok
      split
      · split
        · rcases updateStatusById_getElem? env.newId Status.delivered _ i m (happ _) with
            h1 | ⟨hid, _⟩
          · exact h1
          · exact absurd hid (hok.2 m (List.getElem?_mem h))
        · exact happ _
      · exact happ _
    · exact h
  · exact h

/-- C2, refuted as stated: after `send-message` and `messages-read` the stored message is
`read`, and a following `message-delivered` for it stores `delivered`, which is lower. -/
theorem status_moves_backward :
    (run demoCrypto ServerState.init
        [ServerEvent.sendMessage ⟨1⟩ demoSend demoEnv,
         ServerEvent.messagesRead demoRead true]).messages.map (fun m => (m._id, m.status)) =
      [(1, Status.read)] ∧
    (run demoCrypto ServerState.init
        [ServerEvent.sendMessage ⟨1⟩ demoSend demoEnv,
         ServerEvent.messagesRead demoRead true,
         ServerEvent.messageDelivered ⟨1, js "alice"⟩ true]).messages.map
        (fun m => (m._id, m.status)) = [(1, Status.delivered)] ∧
    ¬ Status.read ≤ Status.delivered := by
  decide

/-- C2, as the handlers behave: for every state, every event and every stored message, the
message keeps its place and id and its status does not move backward, unless the event is
a `message-delivered` acknowledgement of that message's id while the message is `read`. -/
theorem status_monotone (E : Crypto) (s : ServerState) (ev : ServerEvent) (i : Nat)
    (m : Message) (hm : s.messages[i]? = some m)
    (hack : ∀ data dbOk, ev = ServerEvent.messageDelivered data dbOk →
      data.messageId = m._id → m.status ≠ Status.read) :
    ∃ m', (step E s ev).messages[i]? = some m' ∧ m'._id = m._id ∧ m.status ≤ m'.status := by
  cases ev with
  | userConnected socketId userId now dbOk =>
    refine ⟨m, ?_, rfl, Status.le_refl _⟩
    cases dbOk <;> simpa [step, userConnected] using hm
  | sendMessage socketId data env =>
    exact ⟨m, sendMessage_monotone E s socketId data env i m hm, rfl, Status.le_refl _⟩
  | messageDelivered data dbOk =>
    cases dbOk with
    | false => exact ⟨m, by simpa [step, messageDelivered] using hm, rfl, Status.le_refl _⟩
    | true =>
      rcases updateStatusById_getElem? data.messageId Status.delivered s.messages i m hm with
        h1 | ⟨hid, h2⟩
      · exact ⟨m, by simpa [step, messageDelivered] using h1, rfl, Status.le_refl _⟩
      · refine ⟨{ m with status := Status.delivered },
          by simpa [step, messageDelivered] using h2, rfl, ?_⟩
        exact Status.le_delivered_of_ne_read _ (hack data true rfl hid.symm)
  | messagesRead data dbOk =>
    cases dbOk with
    | false => exact ⟨m, by simpa [step, messagesRead] using hm, rfl, Status.le_refl _⟩
    | true => simpa [step, messagesRead] using updateManyRead_monotone s.messages _ _ i m hm
  | putMessagesRead roomId reqUserId dbOk =>
    cases dbOk with
    | false => exact ⟨m, by simpa [step, putMessagesRead] using hm, rfl, Status.le_refl _⟩
    | true => simpa [step, putMessagesRead] using updateManyRead_monotone s.messages _ _ i m hm
  | typing data =>
    refine ⟨m, ?_, rfl, Status.le_refl _⟩
    simp only [step, typing]
    split <;> exact hm
  | stopTyping data =>
    refine ⟨m, ?_, rfl, Status.le_refl _⟩
    simp only [step, stopTyping]
    split <;> exact hm
  | disconnect socketId now dbOk =>
    refine ⟨m, ?_, rfl, Status.le_refl _⟩
    simp only [step, disconnect]
    split
    · cases dbOk <;> simpa using hm
    · exact hm

/-- C2 at the `read` message of the refutation, for a second `messages-read`. -/
theorem status_monotone_witness :
    ∃ m', (step demoCrypto ⟨[], [], [demoReadMessage]⟩
        (ServerEvent.messagesRead demoRead true)).messages[0]? = some m' ∧
      m'._id = demoReadMessage._id ∧ demoReadMessage.status ≤ m'.status :=
  status_monotone demoCrypto ⟨[], [], [demoReadMessage]⟩
    (ServerEvent.messagesRead demoRead true) 0 demoReadMessage rfl
    (fun _ _ h => by cases h)

/-! ### `send-message` -/

theorem sendMessage_offline (E : Crypto) (s : ServerState) (socketId : SocketId)
    (data : SendData) (env : SendEnv) (c1 c2 : JsString)
    (h1 : encrypt E env.iv1 data.content = some c1)
    (h2 : encrypt E env.iv2 data.content = some c2)
    (hsave : env.save1 = true) (hfresh : ∀ m ∈ s.messages, m._id ≠ env.newId)
    (hoff : mapGet s.activeUsers data.receiverId = none) :
    sendMessage E s socketId data env =
      ({ s with messages := s.messages ++ [newMessage data env c1 c2] },
        [Emit.toSocket socketId (Event.messageSent (sentPayload data env Status.sent))]) := by
  have hok : env.save1 = true ∧ ∀ m ∈ s.messages, m._id ≠ env.newId := ⟨hsave, hfresh⟩
  simp only [sendMessage, h1, h2, hoff, if_pos hok]

theorem sendMessage_online (E : Crypto) (s : ServerState) (socketId : SocketId)
    (data : SendData) (env : SendEnv) (c1 c2 : JsString) (receiverSocketId : SocketId)
    (h1 : encrypt E env.iv1 data.content = some c1)
    (h2 : encrypt E env.iv2 data.content = some c2)
    (hsave1 : env.save1 = true) (hfresh : ∀ m ∈ s.messages, m._id ≠ env.newId)
    (hon : mapGet s.activeUsers data.receiverId = some receiverSocketId)
    (hsave2 : env.save2 = true) :
    sendMessage E s socketId data env =
      ({ s with
          messages :=
            s.messages ++ [{ newMessage data env c1 c2 with status := Status.delivered }] },
        [Emit.toSocket receiverSocketId
           (Event.receiveMessage (sentPayload data env Status.delivered)),
         Emit.toSocket socketId (Event.messageSent (sentPayload data env Status.delivered))]) := by
  have hok : env.save1 = true ∧ ∀ m ∈ s.messages, m._id ≠ env.newId := ⟨hsave1, hfresh⟩
  simp only [sendMessage, h1, h2, hon, if_pos hok, hsave2, if_true]
  rw [updateStatusById_split env.newId Status.delivered (newMessage data env c1 c2) []
    s.messages hfresh rfl]

theorem sendMessage_online_save2_fails (E : Crypto) (s : ServerState) (socketId : SocketId)
    (data : SendData) (env : SendEnv) (c1 c2 : JsString) (receiverSocketId : SocketId)
    (h1 : encrypt E env.iv1 data.content = some c1)
    (h2 : encrypt E env.iv2 data.content = some c2)
    (hsave1 : env.save1 = true) (hfresh : ∀ m ∈ s.messages, m._id ≠ env.newId)
    (hon : mapGet s.activeUsers data.receiverId = some receiverSocketId)
    (hsave2 : env.save2 = false) :
    sendMessage E s socketId data env =
      ({ s with messages := s.messages ++ [newMessage data env c1 c2] },
        [Emit.toSocket socketId Event.messageError]) := by
  have hok : env.save1 = true ∧ ∀ m ∈ s.messages, m._id ≠ env.newId := ⟨hsave1, hfresh⟩
  simp [sendMessage, h1, h2, hon, if_pos hok, hsave2]

/-- The messages after a `send-message` whose encryption and insert succeeded: the new
document is appended, `delivered` when the receiver is registered and the second save
succeeds, `sent` otherwise. -/
theorem sendMessage_messages (E : Crypto) (s : ServerState) (socketId : SocketId)
    (data : SendData) (env : SendEnv) (c1 c2 : JsString)
    (h1 : encrypt E env.iv1 data.content = some c1)
    (h2 : encrypt E env.iv2 data.content = some c2)
    (hsave : env.save1 = true) (hfresh : ∀ m ∈ s.messages, m._id ≠ env.newId) :
    ∃ status, (sendMessage E s socketId data env).1.messages =
      s.messages ++ [{ newMessage data env c1 c2 with status := status }] := by
  cases hreg : mapGet s.activeUsers data.receiverId with
  | none =>
    exact ⟨Status.sent, by rw [sendMessage_offline E s socketId data env c1 c2 h1 h2 hsave hfresh hreg]; rfl⟩
  | some r =>
    cases hs2 : env.save2 with
    | true =>
      exact ⟨Status.delivered, by
        rw [sendMessage_online E s socketId data env c1 c2 r h1 h2 hsave hfresh hreg hs2]⟩
    | false =>
      exact ⟨Status.sent, by
        rw [sendMessage_online_save2_fails E s socketId data env c1 c2 r h1 h2 hsave hfresh
          hreg hs2]; rfl⟩

/-- C5, refuted as stated: the server's handler stores a message whose content is blank
and whose sender is its receiver, and acknowledges it with `message-sent`. -/
theorem sendMessage_accepts_blank_self :
    trim demoBlankSelfSend.content = [] ∧
      demoBlankSelfSend.senderId = demoBlankSelfSend.receiverId ∧
      ((sendMessage demoCrypto ServerState.init ⟨1⟩ demoBlankSelfSend demoEnv).1.messages.map
        fun m => (m._id, m.senderId, m.receiverId, m.status)) =
        [(1, js "bob", js "bob", Status.sent)] ∧
      (sendMessage demoCrypto ServerState.init ⟨1⟩ demoBlankSelfSend demoEnv).2 =
        [Emit.toSocket ⟨1⟩ (Event.messageSent (sentPayload demoBlankSelfSend demoEnv Status.sent))] := by
  decide

/-- C5, as the code behaves: the client's `handleSendMessage` emits nothing and changes
nothing when the text is empty after trimming; the server's handler tests neither the
content nor the pair of ids, and stores the message of every request whose encryption and
insert succeed. -/
theorem blank_rejected_by_client_only (c : ClientState) (hblank : trim c.newMessage = [])
    (E : Crypto) (s : ServerState) (socketId : SocketId) (data : SendData) (env : SendEnv)
    (c1 c2 : JsString) (h1 : encrypt E env.iv1 data.content = some c1)
    (h2 : encrypt E env.iv2 data.content = some c2)
    (hsave : env.save1 = true) (hfresh : ∀ m ∈ s.messages, m._id ≠ env.newId) :
    handleSendMessage c = (c, []) ∧
      ∃ status, (sendMessage E s socketId data env).1.messages =
        s.messages ++ [{ newMessage data env c1 c2 with status := status }] := by
  refine ⟨?_, sendMessage_messages E s socketId data env c1 c2 h1 h2 hsave hfresh⟩
  unfold handleSendMessage
  cases c.selectedUser <;> simp [hblank]

/-- C5 at a blank input box and a blank self-addressed request. -/
theorem blank_rejected_by_client_only_witness :
    handleSendMessage demoBlankClient = (demoBlankClient, []) ∧
      ∃ status, (sendMessage demoCrypto ServerState.init ⟨1⟩ demoBlankSelfSend demoEnv).1.messages =
        ServerState.init.messages ++
          [{ newMessage demoBlankSelfSend demoEnv
              (hexEncode (demoIv 0) ++ [colon] ++ hexEncode [32, 32])
              (hexEncode (demoIv 16) ++ [colon] ++ hexEncode [32, 32]) with status := status }] :=
  blank_rejected_by_client_only demoBlankClient (by decide) demoCrypto ServerState.init ⟨1⟩
    demoBlankSelfSend demoEnv _ _ (by decide) (by decide) (by decide) (by decide)

/-- C6: when the receiver has no entry in `activeUsers` and encryption and the insert
succeed, the handler appends exactly one message, with status `sent`, emits no
`receive-message`, and its only emission is `message-sent` to the sender's connection with
status `sent` and the request's plaintext content. -/
theorem sendMessage_receiver_offline (E : Crypto) (s : ServerState) (socketId : SocketId)
    (data : SendData) (env : SendEnv) (c1 c2 : JsString)
    (h1 : encrypt E env.iv1 data.content = some c1)
    (h2 : encrypt E env.iv2 data.content = some c2)
    (hsave : env.save1 = true) (hfresh : ∀ m ∈ s.messages, m._id ≠ env.newId)
    (hoff : mapGet s.activeUsers data.receiverId = none) :
    (sendMessage E s socketId data env).1.messages =
        s.messages ++ [newMessage data env c1 c2] ∧
      (newMessage data env c1 c2).status = Status.sent ∧
      (sendMessage E s socketId data env).2 =
        [Emit.toSocket socketId (Event.messageSent (sentPayload data env Status.sent))] ∧
      (∀ target p,
        Emit.toSocket target (Event.receiveMessage p) ∉ (sendMessage E s socketId data env).2) ∧
      (sentPayload data env Status.sent).status = Status.sent ∧
      (sentPayload data env Status.sent).content = data.content := by
  rw [sendMessage_offline E s socketId data env c1 c2 h1 h2 hsave hfresh hoff]
  refine ⟨rfl, rfl, rfl, ?_, rfl, rfl⟩
  intro target p hmem
  simp at hmem

/-- C6 at a request from `"alice"` to `"bob"` in the initial state. -/
theorem sendMessage_receiver_offline_witness :
    (sendMessage demoCrypto ServerState.init ⟨1⟩ demoSend demoEnv).2 =
      [Emit.toSocket ⟨1⟩ (Event.messageSent (sentPayload demoSend demoEnv Status.sent))] :=
  (sendMessage_receiver_offline demoCrypto ServerState.init ⟨1⟩ demoSend demoEnv
    (hexEncode (demoIv 0) ++ [colon] ++ hexEncode [104, 105])
    (hexEncode (demoIv 16) ++ [colon] ++ hexEncode [104, 105])
    (by decide) (by decide) (by decide) (by decide) (by decide)).2.2.1

/-- C7: when the receiver has an entry in `activeUsers` and encryption and both saves
succeed, the one appended message ends with status `delivered`, exactly one
`receive-message` is emitted, to the receiver's registered connection, with the plaintext
content and status `delivered`, and `message-sent` to the sender carries `delivered`. -/
theorem sendMessage_receiver_online (E : Crypto) (s : ServerState) (socketId : SocketId)
    (data : SendData) (env : SendEnv) (c1 c2 : JsString) (receiverSocketId : SocketId)
    (h1 : encrypt E env.iv1 data.content = some c1)
    (h2 : encrypt E env.iv2 data.content = some c2)
    (hsave1 : env.save1 = true) (hfresh : ∀ m ∈ s.messages, m._id ≠ env.newId)
    (hon : mapGet s.activeUsers data.receiverId = some receiverSocketId)
    (hsave2 : env.save2 = true) :
    (sendMessage E s socketId data env).1.messages =
        s.messages ++ [{ newMessage data env c1 c2 with status := Status.delivered }] ∧
      (sendMessage E s socketId data env).2 =
        [Emit.toSocket receiverSocketId
           (Event.receiveMessage (sentPayload data env Status.delivered)),
         Emit.toSocket socketId (Event.messageSent (sentPayload data env Status.delivered))] ∧
      (∀ target p,
        Emit.toSocket target (Event.receiveMessage p) ∈ (sendMessage E s socketId data env).2 →
          target = receiverSocketId ∧ p.content = data.content ∧
            p.status = Status.delivered) ∧
      (sentPayload data env Status.delivered).content = data.content ∧
      (sentPayload data env Status.delivered).status = Status.delivered := by
  rw [sendMessage_online E s socketId data env c1 c2 receiverSocketId h1 h2 hsave1 hfresh hon
    hsave2]
  refine ⟨rfl, rfl, ?_, rfl, rfl⟩
  intro target p hmem
  simp only [List.mem_cons, Emit.toSocket.injEq, Event.receiveMessage.injEq,
    List.mem_singleton, reduceCtorEq, and_false, or_false, List.not_mem_nil] at hmem
  obtain ⟨ht, hp⟩ := hmem
  subst ht hp
  exact ⟨rfl, rfl, rfl⟩

/-- C7 at a request from `"alice"` to `"bob"` while `"bob"` is registered. -/
theorem sendMessage_receiver_online_witness :
    (sendMessage demoCrypto demoBobOnline ⟨1⟩ demoSend demoEnv).2 =
      [Emit.toSocket ⟨2⟩ (Event.receiveMessage (sentPayload demoSend demoEnv Status.delivered)),
       Emit.toSocket ⟨1⟩ (Event.messageSent (sentPayload demoSend demoEnv Status.delivered))] :=
  (sendMessage_receiver_online demoCrypto demoBobOnline ⟨1⟩ demoSend demoEnv
    (hexEncode (demoIv 0) ++ [colon] ++ hexEncode [104, 105])
    (hexEncode (demoIv 16) ++ [colon] ++ hexEncode [104, 105]) ⟨2⟩
    (by decide) (by decide) (by decide) (by decide) (by decide) (by decide)).2.1

/-! ### Fetching a room -/

theorem decryptAll_of_forall (E : Crypto) (reqUserId : JsString) :
    ∀ l : List Message, (∀ m ∈ l, ∃ p, decryptMessage E reqUserId m = some p) →
      ∃ out, decryptAll E reqUserId l = some out ∧
        ∀ m ∈ l, ∀ p, decryptMessage E reqUserId m = some p → p ∈ out
  | [], _ => ⟨[], rfl, fun _ hm => by simp at hm⟩
  | x :: l, h => by
    obtain ⟨px, hpx⟩ := h x (by simp)
    obtain ⟨out, hout, hmem⟩ :=
      decryptAll_of_forall E reqUserId l (fun m hm => h m (List.mem_cons_of_mem _ hm))
    refine ⟨px :: out, by simp [decryptAll, hpx, hout], ?_⟩
    intro m hm p hp
    rcases List.mem_cons.mp hm with rfl | hm'
    · rw [hpx] at hp
      cases hp
      simp
    · exact List.mem_cons_of_mem _ (hmem m hm' p hp)

theorem decryptMessage_isSome (E : Crypto) (reqUserId : JsString) (m : Message)
    (h1 : (decrypt E m.content).isSome) (h2 : (decrypt E m.senderContent).isSome) :
    ∃ p, decryptMessage E reqUserId m = some p := by
  obtain ⟨a, ha⟩ := Option.isSome_iff_exists.mp h1
  obtain ⟨b, hb⟩ := Option.isSome_iff_exists.mp h2
  unfold decryptMessage
  by_cases hs : m.senderId = reqUserId
  · simp [hs, hb]
  · simp [hs, ha]

theorem decryptMessage_of_both (E : Crypto) (reqUserId : JsString) (m : Message) (c : JsString)
    (h1 : decrypt E m.content = some c) (h2 : decrypt E m.senderContent = some c) :
    decryptMessage E reqUserId m =
      some { _id := m._id, roomId := m.roomId, senderId := m.senderId,
             receiverId := m.receiverId, content := c, status := m.status,
             createdAt := m.createdAt } := by
  unfold decryptMessage
  by_cases hs : m.senderId = reqUserId
  · simp [hs, h2]
  · simp [hs, h1]

theorem mem_findRoom (messages : List Message) (roomId : JsString) (m : Message) :
    m ∈ findRoom messages roomId ↔ m ∈ messages ∧ m.roomId = roomId := by
  simp [findRoom, List.mem_insertionSort]

/-- A room in which every stored envelope decrypts is returned whole, for every requester,
and the response holds the decrypted form of each of its messages. -/
theorem getMessages_ok (E : Crypto) (s : ServerState) (roomId reqUserId : JsString)
    (h : ∀ m ∈ s.messages, m.roomId = roomId →
      (decrypt E m.content).isSome ∧ (decrypt E m.senderContent).isSome) :
    ∃ out, getMessages E s roomId reqUserId true = HttpResult.ok out ∧
      ∀ m ∈ s.messages, m.roomId = roomId →
        ∀ p, decryptMessage E reqUserId m = some p → p ∈ out := by
  obtain ⟨out, hout, hmem⟩ := decryptAll_of_forall E reqUserId (findRoom s.messages roomId)
    (fun m hm => by
      obtain ⟨hm1, hm2⟩ := (mem_findRoom _ _ _).mp hm
      exact decryptMessage_isSome E reqUserId m (h m hm1 hm2).1 (h m hm1 hm2).2)
  refine ⟨out, by simp [getMessages, hout], ?_⟩
  intro m hm hr p hp
  exact hmem m ((mem_findRoom _ _ _).mpr ⟨hm, hr⟩) p hp

theorem envelopes_updateStatusById (id : Nat) (status : Status) :
    ∀ (l : List Message), ∀ m' ∈ updateStatusById l id status,
      ∃ m ∈ l, m'.content = m.content ∧ m'.senderContent = m.senderContent
  | [], m', h => by simp [updateStatusById] at h
  | x :: l, m', h => by
    by_cases hx : x._id = id
    · simp only [updateStatusById, hx, if_true, List.mem_cons] at h
      rcases h with rfl | h
      · exact ⟨x, by simp, rfl, rfl⟩
      · exact ⟨m', List.mem_cons_of_mem _ h, rfl, rfl⟩
    · simp only [updateStatusById, hx, if_false, List.mem_cons] at h
      rcases h with rfl | h
      · exact ⟨m', by simp, rfl, rfl⟩
      · obtain ⟨m, hm, e⟩ := envelopes_updateStatusById id status l m' h
        exact ⟨m, List.mem_cons_of_mem _ hm, e⟩

theorem envelopes_updateManyRead (l : List Message) (roomId receiverId : JsString) :
    ∀ m' ∈ updateManyRead l roomId receiverId,
      ∃ m ∈ l, m'.content = m.content ∧ m'.senderContent = m.senderContent := by
  intro m' h
  simp only [updateManyRead, List.mem_map] at h
  obtain ⟨m, hm, rfl⟩ := h
  refine ⟨m, hm, ?_⟩
  split <;> exact ⟨rfl, rfl⟩

theorem decryptable_of_envelopes (E : Crypto) (l l' : List Message) (h : Decryptable E l)
    (he : ∀ m' ∈ l', ∃ m ∈ l, m'.content = m.content ∧ m'.senderContent = m.senderContent) :
    Decryptable E l' := by
  intro m' hm'
  obtain ⟨m, hm, e1, e2⟩ := he m' hm'
  rw [e1, e2]
  exact h m hm

theorem decryptable_append_new (E : Crypto) (hinv : Inverts E) (l : List Message)
    (h : Decryptable E l) (data : SendData) (env : SendEnv) (c1 c2 : JsString)
    (h1 : encrypt E env.iv1 data.content = some c1)
    (h2 : encrypt E env.iv2 data.content = some c2) :
    Decryptable E (l ++ [newMessage data env c1 c2]) := by
  have key : ∀ iv c, encrypt E iv data.content = some c → (decrypt E c).isSome := by
    intro iv c hc
    unfold encrypt at hc
    cases hct : E.cipher E.key iv (utf8Encode data.content) with
    | none => simp [hct] at hc
    | some ct =>
      simp only [hct, Option.some.injEq] at hc
      rw [← hc, decrypt_envelope, hinv iv (utf8Encode data.content) ct hct]
      rfl
  intro m hm
  rcases List.mem_append.mp hm with hm | hm
  · exact h m hm
  · rw [List.mem_singleton] at hm
    subst hm
    exact ⟨key _ _ h1, key _ _ h2⟩

theorem decryptable_sendMessage (E : Crypto) (hinv : Inverts E) (s : ServerState)
    (socketId : SocketId) (data : SendData) (env : SendEnv) (h : Decryptable E s.messages) :
    Decryptable E (sendMessage E s socketId data env).1.messages := by
  unfold sendMessage
  split
  · rename_i c1 c2 h1 h2
    split
    · split
      · split
        · exact decryptable_of_envelopes E _ _ (decryptable_append_new E hinv _ h data env c1 c2 h1 h2)
            (envelopes_updateStatusById _ _ _)
        · exact decryptable_append_new E hinv _ h data env c1 c2 h1 h2
      · exact decryptable_append_new E hinv _ h data env c1 c2 h1 h2
    · exact h
  · exact h

theorem decryptable_step (E : Crypto) (hinv : Inverts E) (s : ServerState) (ev : ServerEvent)
    (h : Decryptable E s.messages) : Decryptable E (step E s ev).messages := by
  cases ev with
  | userConnected socketId userId now dbOk => cases dbOk <;> exact h
  | sendMessage socketId data env => exact decryptable_sendMessage E hinv s socketId data env h
  | messageDelivered data dbOk =>
    cases dbOk
    · exact h
    · exact decryptable_of_envelopes E _ _ h (envelopes_updateStatusById _ _ _)
  | messagesRead data dbOk =>
    cases dbOk
    · exact h
    · exact decryptable_of_envelopes E _ _ h (envelopes_updateManyRead _ _ _)
  | putMessagesRead roomId reqUserId dbOk =>
    cases dbOk
    · exact h
    · exact decryptable_of_envelopes E _ _ h (envelopes_updateManyRead _ _ _)
  | typing data =>
    simp only [step, typing]
    split <;> exact h
  | stopTyping data =>
    simp only [step, stopTyping]
    split <;> exact h
  | disconnect socketId now dbOk =>
    simp only [step, disconnect]
    split
    · cases dbOk <;> exact h
    · exact h

/-- With an inverting cipher, every envelope stored in a state reached from the initial
state decrypts, so every room of such a state can be fetched. -/
theorem decryptable_run (E : Crypto) (hinv : Inverts E) (events : List ServerEvent) :
    ∀ s : ServerState, Decryptable E s.messages → Decryptable E (run E s events).messages := by
  induction events with
  | nil => exact fun s h => h
  | cons ev rest ih => exact fun s h => ih _ (decryptable_step E hinv s ev h)

/-- C8, refuted as stated: a message whose plaintext is the unpaired surrogate `U+D83D`
is stored by `send-message` and fetched by the receiver with content `U+FFFD`; and a
message `"hi"` sent into a room that holds an undecryptable record is stored, but the
fetch of the room ends with status 500 and returns nothing. -/
theorem fetch_after_send_not_plaintext :
    getMessages demoCrypto
        (sendMessage demoCrypto ServerState.init ⟨1⟩ demoLoneSurrogateSend demoEnv).1
        (js "alice-bob") (js "bob") true =
      HttpResult.ok
        [{ _id := 1, roomId := js "alice-bob", senderId := js "alice", receiverId := js "bob",
           content := [0xFFFD], status := Status.sent, createdAt := 1000 }] ∧
      demoLoneSurrogateSend.content = [0xD83D] ∧
      ((sendMessage demoCrypto demoCorruptRoom ⟨1⟩ demoSend demoEnvThird).1.messages.map
        fun m => m._id) = [1, 2, 3] ∧
      getMessages demoCrypto (sendMessage demoCrypto demoCorruptRoom ⟨1⟩ demoSend demoEnvThird).1
        (js "alice-bob") (js "alice") true = HttpResult.serverError := by
  decide

/-- C8, as the code behaves: after a `send-message` from A to B in room r whose plaintext c
is well-formed (no unpaired surrogate) and whose encryption and insert succeeded (the
decipher inverting the cipher on the bytes at both drawn ivs), both stored envelopes
decrypt to c, and the room fetched as A and fetched as B, the older messages of the room
being decryptable, is returned and holds that message with content exactly c. -/
theorem fetch_after_send (E : Crypto) (s : ServerState) (socketId : SocketId)
    (data : SendData) (env : SendEnv) (ct1 ct2 : List Byte)
    (hc1 : E.cipher E.key env.iv1 (utf8Encode data.content) = some ct1)
    (hd1 : E.decipher E.key env.iv1 ct1 = some (utf8Encode data.content))
    (hc2 : E.cipher E.key env.iv2 (utf8Encode data.content) = some ct2)
    (hd2 : E.decipher E.key env.iv2 ct2 = some (utf8Encode data.content))
    (hwf : isWellFormed data.content = true)
    (hsave : env.save1 = true) (hfresh : ∀ m ∈ s.messages, m._id ≠ env.newId)
    (hroom : ∀ m ∈ s.messages, m.roomId = data.roomId →
      (decrypt E m.content).isSome ∧ (decrypt E m.senderContent).isSome) :
    ∃ stored ∈ (sendMessage E s socketId data env).1.messages,
      stored._id = env.newId ∧ stored.roomId = data.roomId ∧
      stored.senderId = data.senderId ∧ stored.receiverId = data.receiverId ∧
      decrypt E stored.content = some data.content ∧
      decrypt E stored.senderContent = some data.content ∧
      ∀ requester, requester = data.senderId ∨ requester = data.receiverId →
        ∃ out, getMessages E (sendMessage E s socketId data env).1 data.roomId requester true =
            HttpResult.ok out ∧
          { _id := env.newId, roomId := data.roomId, senderId := data.senderId,
            receiverId := data.receiverId, content := data.content, status := stored.status,
            createdAt := env.createdAt } ∈ out := by
  have h1 : encrypt E env.iv1 data.content =
      some (hexEncode env.iv1 ++ [colon] ++ hexEncode ct1) := by simp [encrypt, hc1]
  have h2 : encrypt E env.iv2 data.content =
      some (hexEncode env.iv2 ++ [colon] ++ hexEncode ct2) := by simp [encrypt, hc2]
  obtain ⟨status, hst⟩ := sendMessage_messages E s socketId data env _ _ h1 h2 hsave hfresh
  have hback : utf8Decode (utf8Encode data.content) = data.content :=
    utf8Decode_utf8Encode data.content hwf
  have e1 : decrypt E (hexEncode env.iv1 ++ [colon] ++ hexEncode ct1) = some data.content := by
    rw [decrypt_envelope, hd1, Option.map_some', hback]
  have e2 : decrypt E (hexEncode env.iv2 ++ [colon] ++ hexEncode ct2) = some data.content := by
    rw [decrypt_envelope, hd2, Option.map_some', hback]
  refine ⟨{ newMessage data env _ _ with status := status }, by simp [hst], rfl, rfl, rfl, rfl,
    e1, e2, ?_⟩
  intro requester _
  have hall : ∀ m ∈ (sendMessage E s socketId data env).1.messages, m.roomId = data.roomId →
      (decrypt E m.content).isSome ∧ (decrypt E m.senderContent).isSome := by
    intro m hm hr
    rw [hst, List.mem_append, List.mem_singleton] at hm
    rcases hm with hm | rfl
    · exact hroom m hm hr
    · exact ⟨Option.isSome_iff_exists.mpr ⟨_, e1⟩, Option.isSome_iff_exists.mpr ⟨_, e2⟩⟩
  obtain ⟨out, hout, hmem⟩ :=
    getMessages_ok E (sendMessage E s socketId data env).1 data.roomId requester hall
  refine ⟨out, hout, ?_⟩
  exact hmem { newMessage data env _ _ with status := status } (by simp [hst]) rfl _
    (decryptMessage_of_both E requester _ data.content e1 e2)

/-- C8 at a request from `"alice"` to `"bob"` in the initial state, fetched by `"bob"`. -/
theorem fetch_after_send_witness :
    ∃ stored ∈ (sendMessage demoCrypto ServerState.init ⟨1⟩ demoSend demoEnv).1.messages,
      stored._id = 1 ∧
      ∃ out, getMessages demoCrypto (sendMessage demoCrypto ServerState.init ⟨1⟩ demoSend demoEnv).1
          (js "alice-bob") (js "bob") true = HttpResult.ok out ∧
        { _id := 1, roomId := js "alice-bob", senderId := js "alice", receiverId := js "bob",
          content := js "hi", status := stored.status, createdAt := 1000 } ∈ out := by
  obtain ⟨stored, hmem, hid, _, _, _, _, _, hfetch⟩ :=
    fetch_after_send demoCrypto ServerState.init ⟨1⟩ demoSend demoEnv [104, 105] [104, 105]
      (by decide) (by decide) (by decide) (by decide) (by decide) (by decide) (by decide)
      (fun m hm => by simp [ServerState.init] at hm)
  exact ⟨stored, hmem, hid, hfetch (js "bob") (Or.inr rfl)⟩

/-! ### Marking a room read -/

/-- C9: both read-marking paths store `updateManyRead` of the messages and touch nothing
else; that update keeps every message in place, sets to `read` exactly the messages of the
given room and reader that are not yet `read` (changing no other field), leaves every
other message as it was, and afterwards every message of that reader in that room is
`read`. -/
theorem markRoomRead_exact (s : ServerState) (roomId reader senderId : JsString) :
    (messagesRead s ⟨roomId, reader, senderId⟩ true).1 =
        { s with messages := updateManyRead s.messages roomId reader } ∧
      (putMessagesRead s roomId reader true).1 =
        { s with messages := updateManyRead s.messages roomId reader } ∧
      (updateManyRead s.messages roomId reader).length = s.messages.length ∧
      (∀ (i : Nat) (m : Message), s.messages[i]? = some m →
        (m.roomId = roomId ∧ m.receiverId = reader ∧ m.status ≠ Status.read →
          (updateManyRead s.messages roomId reader)[i]? =
            some { m with status := Status.read }) ∧
        (¬ (m.roomId = roomId ∧ m.receiverId = reader ∧ m.status ≠ Status.read) →
          (updateManyRead s.messages roomId reader)[i]? = some m)) ∧
      (∀ m' ∈ updateManyRead s.messages roomId reader,
        m'.roomId = roomId → m'.receiverId = reader → m'.status = Status.read) := by
  refine ⟨by simp [messagesRead], by simp [putMessagesRead], by simp [updateManyRead], ?_, ?_⟩
  · intro i m hm
    have h := updateManyRead_getElem? s.messages roomId reader i m hm
    exact ⟨fun hc => by rw [h, if_pos hc], fun hc => by rw [h, if_neg hc]⟩
  · intro m' hm' hr hu
    simp only [updateManyRead, List.mem_map] at hm'
    obtain ⟨m, _, rfl⟩ := hm'
    by_cases hc : m.roomId = roomId ∧ m.receiverId = reader ∧ m.status ≠ Status.read
    · rw [if_pos hc]
    · rw [if_neg hc] at hr hu ⊢
      by_contra hne
      exact hc ⟨hr, hu, hne⟩

/-! ### Presence -/

theorem mapGet_mapSet_self :
    ∀ (l : List (JsString × SocketId)) (k : JsString) (v : SocketId),
      mapGet (mapSet l k v) k = some v
  | [], k, v => by simp [mapSet, mapGet]
  | (k', v') :: rest, k, v => by
    by_cases h : k' = k
    · simp [mapSet, mapGet, h]
    · simp [mapSet, mapGet, h, mapGet_mapSet_self rest k v]

theorem keys_mapSet :
    ∀ (l : List (JsString × SocketId)) (k : JsString) (v : SocketId) (x : JsString),
      x ∈ (mapSet l k v).map Prod.fst ↔ x = k ∨ x ∈ l.map Prod.fst
  | [], k, v, x => by simp [mapSet]
  | (k', v') :: rest, k, v, x => by
    by_cases h : k' = k
    · simp only [mapSet, h, if_true, List.map_cons, List.mem_cons]
      tauto
    · simp only [mapSet, h, if_false, List.map_cons, List.mem_cons, keys_mapSet rest k v x]
      tauto

theorem nodup_keys_mapSet :
    ∀ (l : List (JsString × SocketId)) (k : JsString) (v : SocketId),
      (l.map Prod.fst).Nodup → ((mapSet l k v).map Prod.fst).Nodup
  | [], k, v, _ => by simp [mapSet]
  | (k', v') :: rest, k, v, h => by
    simp only [List.map_cons, List.nodup_cons] at h
    by_cases hk : k' = k
    · simp only [mapSet, hk, if_true, List.map_cons, List.nodup_cons]
      exact ⟨hk ▸ h.1, h.2⟩
    · simp only [mapSet, hk, if_false, List.map_cons, List.nodup_cons, keys_mapSet]
      exact ⟨fun hc => hc.elim False.elim h.1, nodup_keys_mapSet rest k v h.2⟩

theorem mem_mapSet :
    ∀ (l : List (JsString × SocketId)) (k : JsString) (v : SocketId) (e : JsString × SocketId),
      e ∈ mapSet l k v → e = (k, v) ∨ e ∈ l
  | [], k, v, e, h => by
    simp only [mapSet, List.mem_singleton] at h
    exact Or.inl h
  | (k', v') :: rest, k, v, e, h => by
    by_cases hk : k' = k
    · simp only [mapSet, hk, if_true, List.mem_cons] at h
      rcases h with h | h
      · exact Or.inl h
      · exact Or.inr (List.mem_cons_of_mem _ h)
    · simp only [mapSet, hk, if_false, List.mem_cons] at h
      rcases h with h | h
      · exact Or.inr (by simp [h])
      · rcases mem_mapSet rest k v e h with h' | h'
        · exact Or.inl h'
        · exact Or.inr (List.mem_cons_of_mem _ h')

theorem mapGet_of_mem :
    ∀ (l : List (JsString × SocketId)) (k : JsString) (v : SocketId),
      (l.map Prod.fst).Nodup → (k, v) ∈ l → mapGet l k = some v
  | [], _, _, _, h => by simp at h
  | (k', v') :: rest, k, v, hnd, hmem => by
    simp only [List.map_cons, List.nodup_cons] at hnd
    rcases List.mem_cons.mp hmem with heq | hmem'
    · cases heq
      simp [mapGet]
    · have hk : k' ≠ k := fun e => hnd.1 (e ▸ List.mem_map_of_mem Prod.fst hmem')
      simp [mapGet, hk, mapGet_of_mem rest k v hnd.2 hmem']

theorem mapGet_mapDelete_of_ne :
    ∀ (l : List (JsString × SocketId)) (k u : JsString), u ≠ k →
      mapGet (mapDelete l k) u = mapGet l u
  | [], _, _, _ => by simp [mapDelete]
  | (k', v') :: rest, k, u, h => by
    by_cases hk : k' = k
    · have hu : ¬ k' = u := fun e => h (e ▸ hk)
      simp [mapDelete, mapGet, hk, hu, hk ▸ hu]
    · simp [mapDelete, mapGet, hk, mapGet_mapDelete_of_ne rest k u h]

theorem isOnline_updateUser_of_ne :
    ∀ (l : List User) (k u : JsString) (b : Bool) (t : Nat), u ≠ k →
      isOnline (updateUser l k b t) u = isOnline l u
  | [], _, _, _, _, _ => by simp [updateUser]
  | x :: rest, k, u, b, t, h => by
    by_cases hk : x._id = k
    · have hu : ¬ k = u := fun e => h e.symm
      simp [updateUser, isOnline, hk, hu]
    · simp [updateUser, isOnline, hk, isOnline_updateUser_of_ne rest k u b t h]

theorem isOnline_updateUser_self :
    ∀ (l : List User) (u : JsString) (b : Bool) (t : Nat),
      isOnline (updateUser l u b t) u = (isOnline l u).map fun _ => b
  | [], _, _, _ => by simp [updateUser, isOnline]
  | x :: rest, u, b, t => by
    by_cases hk : x._id = u
    · simp [updateUser, isOnline, hk]
    · simp [updateUser, isOnline, hk, isOnline_updateUser_self rest u b t]

theorem keys_mapDelete_subset :
    ∀ (l : List (JsString × SocketId)) (k x : JsString),
      x ∈ (mapDelete l k).map Prod.fst → x ∈ l.map Prod.fst
  | [], _, _, h => by simp [mapDelete] at h
  | (k', v') :: rest, k, x, h => by
    by_cases hk : k' = k
    · simp only [mapDelete, hk, if_true] at h
      exact List.mem_cons_of_mem _ h
    · simp only [mapDelete, hk, if_false, List.map_cons, List.mem_cons] at h ⊢
      exact h.imp id (keys_mapDelete_subset rest k x)

theorem nodup_keys_mapDelete :
    ∀ (l : List (JsString × SocketId)) (k : JsString),
      (l.map Prod.fst).Nodup → ((mapDelete l k).map Prod.fst).Nodup
  | [], _, _ => by simp [mapDelete]
  | (k', v') :: rest, k, h => by
    simp only [List.map_cons, List.nodup_cons] at h
    by_cases hk : k' = k
    · simp only [mapDelete, hk, if_true]
      exact h.2
    · simp only [mapDelete, hk, if_false, List.map_cons, List.nodup_cons]
      exact ⟨fun hc => h.1 (keys_mapDelete_subset rest k k' hc), nodup_keys_mapDelete rest k h.2⟩

theorem keysDistinct_step (E : Crypto) (s : ServerState) (ev : ServerEvent)
    (h : KeysDistinct s) : KeysDistinct (step E s ev) := by
  cases ev with
  | userConnected socketId userId now dbOk =>
    cases dbOk <;> exact nodup_keys_mapSet _ _ _ h
  | sendMessage socketId data env =>
    have e : (sendMessage E s socketId data env).1.activeUsers = s.activeUsers := by
      unfold sendMessage
      split
      · split
        · split
          · split <;> rfl
          · rfl
        · rfl
      · rfl
    unfold KeysDistinct
    rw [show (step E s (ServerEvent.sendMessage socketId data env)).activeUsers =
      s.activeUsers from e]
    exact h
  | messageDelivered data dbOk => cases dbOk <;> exact h
  | messagesRead data dbOk => cases dbOk <;> exact h
  | putMessagesRead roomId reqUserId dbOk => cases dbOk <;> exact h
  | typing data =>
    simp only [step, typing]
    split <;> exact h
  | stopTyping data =>
    simp only [step, stopTyping]
    split <;> exact h
  | disconnect socketId now dbOk =>
    simp only [step, disconnect]
    split
    · cases dbOk <;> exact nodup_keys_mapDelete _ _ h
    · exact h

/-- The keys of `activeUsers` are distinct in every state reached from the initial one. -/
theorem keysDistinct_run (E : Crypto) (events : List ServerEvent) :
    ∀ s : ServerState, KeysDistinct s → KeysDistinct (run E s events) := by
  induction events with
  | nil => exact fun s h => h
  | cons ev rest ih => exact fun s h => ih _ (keysDistinct_step E s ev h)

theorem keysDistinct_init : KeysDistinct ServerState.init := by
  simp [KeysDistinct, ServerState.init]

/-- In a registry that maps `u` to `h2`, the disconnect of another connection `h1` keeps
that entry, keeps the `isOnline` flag of `u`, and emits nothing about `u`; when `h1` is
the value of no entry the handler changes and emits nothing at all. -/
theorem disconnect_other_handle (s : ServerState) (u : JsString) (h1 h2 : SocketId) (now : Nat)
    (dbOk : Bool) (hnd : KeysDistinct s)
    (hreg : mapGet s.activeUsers u = some h2) (hne : h1 ≠ h2) :
    mapGet (disconnect s h1 now dbOk).1.activeUsers u = some h2 ∧
      isOnline (disconnect s h1 now dbOk).1.users u = isOnline s.users u ∧
      (∀ t, Emit.broadcast (Event.userStatusOffline u t) ∉ (disconnect s h1 now dbOk).2) ∧
      ((∀ e ∈ s.activeUsers, e.2 ≠ h1) → disconnect s h1 now dbOk = (s, [])) := by
  unfold disconnect
  cases hfind : s.activeUsers.find? (fun entry => entry.2 = h1) with
  | none =>
    exact ⟨hreg, rfl, fun t hm => by simp at hm, fun _ => rfl⟩
  | some e =>
    obtain ⟨k, v⟩ := e
    have hmem : (k, v) ∈ s.activeUsers := List.mem_of_find?_eq_some hfind
    have hv : v = h1 := by simpa using List.find?_some hfind
    have hk : u ≠ k := by
      intro e
      have := mapGet_of_mem s.activeUsers k v hnd hmem
      rw [← e, hreg] at this
      exact hne (hv ▸ (Option.some.inj this).symm)
    refine ⟨?_, ?_, ?_, ?_⟩
    · cases dbOk <;> simpa using (mapGet_mapDelete_of_ne s.activeUsers k u hk).trans hreg
    · cases dbOk
      · simp
      · simpa using isOnline_updateUser_of_ne s.users k u false now hk
    · intro t hm
      cases dbOk
      · simp at hm
      · simp at hm
        exact hk hm.1
    · intro hall
      exact absurd hv (hall (k, v) hmem)

/-- C10: when `u` registers on `h1` and then on a different `h2`, the disconnect of `h1`
leaves the registry mapping `u` to `h2`, leaves `isOnline(u)` as it was (`true` when the
second registration was recorded for an existing user) and broadcasts no offline status
for `u`; when `h1` owns no other user either, the handler changes and emits nothing.
The keys of the registry are distinct, as `keysDistinct_run` shows of reachable states. -/
theorem stale_disconnect_noop (s : ServerState) (u : JsString) (h1 h2 : SocketId)
    (t1 t2 t3 : Nat) (db1 db2 db3 : Bool) (hnd : KeysDistinct s) (hne : h1 ≠ h2) :
    mapGet (disconnect (userConnected (userConnected s h1 u t1 db1).1 h2 u t2 db2).1 h1 t3
        db3).1.activeUsers u = some h2 ∧
      isOnline (disconnect (userConnected (userConnected s h1 u t1 db1).1 h2 u t2 db2).1 h1 t3
        db3).1.users u =
        isOnline (userConnected (userConnected s h1 u t1 db1).1 h2 u t2 db2).1.users u ∧
      (db2 = true → (isOnline s.users u).isSome →
        isOnline (disconnect (userConnected (userConnected s h1 u t1 db1).1 h2 u t2 db2).1 h1 t3
          db3).1.users u = some true) ∧
      (∀ t, Emit.broadcast (Event.userStatusOffline u t) ∉
        (disconnect (userConnected (userConnected s h1 u t1 db1).1 h2 u t2 db2).1 h1 t3 db3).2) ∧
      ((∀ e ∈ s.activeUsers, e.2 = h1 → e.1 = u) →
        disconnect (userConnected (userConnected s h1 u t1 db1).1 h2 u t2 db2).1 h1 t3 db3 =
          ((userConnected (userConnected s h1 u t1 db1).1 h2 u t2 db2).1, [])) := by
  have hreg2 : (userConnected (userConnected s h1 u t1 db1).1 h2 u t2 db2).1.activeUsers =
      mapSet (mapSet s.activeUsers u h1) u h2 := by
    cases db1 <;> cases db2 <;> rfl
  have hnd2 : KeysDistinct (userConnected (userConnected s h1 u t1 db1).1 h2 u t2 db2).1 := by
    unfold KeysDistinct
    rw [hreg2]
    exact nodup_keys_mapSet _ _ _ (nodup_keys_mapSet _ _ _ hnd)
  have hget : mapGet (userConnected (userConnected s h1 u t1 db1).1 h2 u t2 db2).1.activeUsers u =
      some h2 := by
    rw [hreg2]
    exact mapGet_mapSet_self _ _ _
  obtain ⟨r1, r2, r3, r4⟩ := disconnect_other_handle
    (userConnected (userConnected s h1 u t1 db1).1 h2 u t2 db2).1 u h1 h2 t3 db3 hnd2 hget hne
  refine ⟨r1, r2, ?_, r3, ?_⟩
  · intro hdb hex
    rw [r2]
    subst hdb
    obtain ⟨b, hb⟩ := Option.isSome_iff_exists.mp hex
    cases db1
    · simp [userConnected, isOnline_updateUser_self, hb]
    · simp [userConnected, isOnline_updateUser_self, hb]
  · intro hown
    apply r4
    intro e he heq
    obtain ⟨k, v⟩ := e
    simp only at heq
    subst heq
    have hk : k = u := by
      rw [hreg2] at he
      rcases mem_mapSet _ _ _ _ he with h | h
      · exact (Prod.mk.inj h).1
      · rcases mem_mapSet _ _ _ _ h with h' | h'
        · exact (Prod.mk.inj h').1
        · exact hown (k, v) h' rfl
    have := mapGet_of_mem _ k v hnd2 he
    rw [hk, hget] at this
    exact hne (Option.some.inj this).symm

/-- C10 at `"alice"` registering on connection 1 and then on connection 2. -/
theorem stale_disconnect_noop_witness :
    mapGet (disconnect (userConnected (userConnected demoAliceKnown ⟨1⟩ (js "alice") 10 true).1
        ⟨2⟩ (js "alice") 20 true).1 ⟨1⟩ 30 true).1.activeUsers (js "alice") = some ⟨2⟩ :=
  (stale_disconnect_noop demoAliceKnown (js "alice") ⟨1⟩ ⟨2⟩ 10 20 30 true true true
    (by simp [KeysDistinct, demoAliceKnown]) (by decide)).1

theorem mapGet_mapDelete_self :
    ∀ (l : List (JsString × SocketId)) (k : JsString),
      (l.map Prod.fst).Nodup → mapGet (mapDelete l k) k = none
  | [], _, _ => by simp [mapDelete, mapGet]
  | (k', v') :: rest, k, h => by
    simp only [List.map_cons, List.nodup_cons] at h
    by_cases hk : k' = k
    · simp only [mapDelete, hk, if_true]
      cases hget : mapGet rest k with
      | none => rfl
      | some v =>
        exfalso
        have hmem : ∀ (l : List (JsString × SocketId)), mapGet l k = some v → k ∈ l.map Prod.fst := by
          intro l
          induction l with
          | nil => simp [mapGet]
          | cons x xs ih =>
            obtain ⟨a, b⟩ := x
            by_cases ha : a = k
            · simp [ha]
            · simp only [mapGet, ha, if_false, List.map_cons, List.mem_cons]
              exact fun hx => Or.inr (ih hx)
        exact h.1 (hk ▸ hmem rest hget)
    · simp [mapDelete, mapGet, hk, mapGet_mapDelete_self rest k h.2]

theorem mapGet_mapSet_of_ne :
    ∀ (l : List (JsString × SocketId)) (k u : JsString) (v : SocketId), u ≠ k →
      mapGet (mapSet l k v) u = mapGet l u
  | [], k, u, v, h => by
    have hk : ¬ k = u := fun e => h e.symm
    simp [mapSet, mapGet, hk]
  | (k', v') :: rest, k, u, v, h => by
    by_cases hk : k' = k
    · have hu : ¬ k = u := fun e => h e.symm
      simp [mapSet, mapGet, hk, hu]
    · simp [mapSet, mapGet, hk, mapGet_mapSet_of_ne rest k u v h]

theorem lastSeen_updateUser_self :
    ∀ (l : List User) (u : JsString) (b : Bool) (t : Nat),
      lastSeen (updateUser l u b t) u = (isOnline l u).map fun _ => t
  | [], _, _, _ => by simp [updateUser, isOnline, lastSeen]
  | x :: rest, u, b, t => by
    by_cases hk : x._id = u
    · simp [updateUser, isOnline, lastSeen, hk]
    · simp [updateUser, isOnline, lastSeen, hk, lastSeen_updateUser_self rest u b t]

/-- C11, refuted as stated: when `"alice"` and then `"bob"` register on connection 1, that
connection owns `"bob"`, and after its disconnect the registry still maps `"bob"` to it
and `"bob"` is still recorded online; only `"alice"` was taken offline. -/
theorem disconnect_leaves_second_user :
    mapGet (run demoCrypto demoTwoUsers
        [ServerEvent.userConnected ⟨1⟩ (js "alice") 10 true,
         ServerEvent.userConnected ⟨1⟩ (js "bob") 20 true]).activeUsers (js "bob") = some ⟨1⟩ ∧
      mapGet (run demoCrypto demoTwoUsers
        [ServerEvent.userConnected ⟨1⟩ (js "alice") 10 true,
         ServerEvent.userConnected ⟨1⟩ (js "bob") 20 true,
         ServerEvent.disconnect ⟨1⟩ 30 true]).activeUsers (js "bob") = some ⟨1⟩ ∧
      isOnline (run demoCrypto demoTwoUsers
        [ServerEvent.userConnected ⟨1⟩ (js "alice") 10 true,
         ServerEvent.userConnected ⟨1⟩ (js "bob") 20 true,
         ServerEvent.disconnect ⟨1⟩ 30 true]).users (js "bob") = some true := by
  decide

/-- C11, as the handlers behave: after `user-connected(u)` on `h` for an existing user
(the database update succeeding) the registry maps `u` to `h`, `isOnline(u)` is true,
`lastSeen(u)` is the connect time and the only emission is the online broadcast; after the
disconnect of a handle `h'` for which the entry of `u` is the first one of the registry
with that handle, `u` has no entry, `isOnline(u)` is false, `lastSeen(u)` is the
disconnect time and the only emission is the offline broadcast with that same time. -/
theorem presence_connect_disconnect (s : ServerState) (u : JsString) (h : SocketId) (t : Nat)
    (hex : (isOnline s.users u).isSome) (s' : ServerState) (h' : SocketId) (t' : Nat)
    (hkeys : KeysDistinct s')
    (hfirst : s'.activeUsers.find? (fun entry => entry.2 = h') = some (u, h'))
    (hex' : (isOnline s'.users u).isSome) :
    (mapGet (userConnected s h u t true).1.activeUsers u = some h ∧
      isOnline (userConnected s h u t true).1.users u = some true ∧
      lastSeen (userConnected s h u t true).1.users u = some t ∧
      (userConnected s h u t true).2 = [Emit.broadcast (Event.userStatusOnline u)]) ∧
    (mapGet (disconnect s' h' t' true).1.activeUsers u = none ∧
      isOnline (disconnect s' h' t' true).1.users u = some false ∧
      lastSeen (disconnect s' h' t' true).1.users u = some t' ∧
      (disconnect s' h' t' true).2 = [Emit.broadcast (Event.userStatusOffline u t')]) := by
  obtain ⟨b, hb⟩ := Option.isSome_iff_exists.mp hex
  obtain ⟨b', hb'⟩ := Option.isSome_iff_exists.mp hex'
  constructor
  · refine ⟨mapGet_mapSet_self _ _ _, ?_, ?_, rfl⟩
    · simp [userConnected, isOnline_updateUser_self, hb]
    · simp [userConnected, lastSeen_updateUser_self, hb]
  · have hd : disconnect s' h' t' true =
        ({ s' with activeUsers := mapDelete s'.activeUsers u,
                   users := updateUser s'.users u false t' },
          [Emit.broadcast (Event.userStatusOffline u t')]) := by
      simp [disconnect, hfirst]
    rw [hd]
    refine ⟨mapGet_mapDelete_self _ _ hkeys, ?_, ?_, rfl⟩
    · simp [isOnline_updateUser_self, hb']
    · simp [lastSeen_updateUser_self, hb']

/-- C11 at `"alice"` connecting on connection 1 and that connection closing. -/
theorem presence_connect_disconnect_witness :
    (mapGet (userConnected demoAliceKnown ⟨1⟩ (js "alice") 10 true).1.activeUsers (js "alice") =
        some ⟨1⟩ ∧
      isOnline (userConnected demoAliceKnown ⟨1⟩ (js "alice") 10 true).1.users (js "alice") =
        some true ∧
      lastSeen (userConnected demoAliceKnown ⟨1⟩ (js "alice") 10 true).1.users (js "alice") =
        some 10 ∧
      (userConnected demoAliceKnown ⟨1⟩ (js "alice") 10 true).2 =
        [Emit.broadcast (Event.userStatusOnline (js "alice"))]) ∧
    (mapGet (disconnect demoAliceOnline ⟨1⟩ 30 true).1.activeUsers (js "alice") = none ∧
      isOnline (disconnect demoAliceOnline ⟨1⟩ 30 true).1.users (js "alice") = some false ∧
      lastSeen (disconnect demoAliceOnline ⟨1⟩ 30 true).1.users (js "alice") = some 30 ∧
      (disconnect demoAliceOnline ⟨1⟩ 30 true).2 =
        [Emit.broadcast (Event.userStatusOffline (js "alice") 30)]) :=
  presence_connect_disconnect demoAliceKnown (js "alice") ⟨1⟩ 10 (by decide) demoAliceOnline
    ⟨1⟩ 30 (by simp [KeysDistinct, demoAliceOnline]) (by decide) (by decide)

theorem sendMessage_frame (E : Crypto) (s : ServerState) (socketId : SocketId)
    (data : SendData) (env : SendEnv) :
    (sendMessage E s socketId data env).1.activeUsers = s.activeUsers ∧
      (sendMessage E s socketId data env).1.users = s.users := by
  unfold sendMessage
  split
  · split
    · split
      · split <;> exact ⟨rfl, rfl⟩
      · exact ⟨rfl, rfl⟩
    · exact ⟨rfl, rfl⟩
  · exact ⟨rfl, rfl⟩

theorem presenceConsistent_of_frame (s s' : ServerState) (h : PresenceConsistent s)
    (hreg : s'.activeUsers = s.activeUsers) (husers : s'.users = s.users) :
    PresenceConsistent s' := by
  unfold PresenceConsistent
  rw [hreg, husers]
  exact h

theorem presenceConsistent_userConnected (s : ServerState) (socketId : SocketId)
    (userId : JsString) (now : Nat) (h : PresenceConsistent s) :
    PresenceConsistent (userConnected s socketId userId now true).1 := by
  intro u hu
  by_cases hk : u = userId
  · subst hk
    have h1 : isOnline (userConnected s socketId u now true).1.users u =
        (isOnline s.users u).map fun _ => true := isOnline_updateUser_self _ _ _ _
    have h2 : mapGet (userConnected s socketId u now true).1.activeUsers u = some socketId :=
      mapGet_mapSet_self _ _ _
    rw [h1] at hu ⊢
    rw [h2]
    cases hs : isOnline s.users u with
    | none => simp [hs] at hu
    | some b => simp
  · have h1 : isOnline (userConnected s socketId userId now true).1.users u =
        isOnline s.users u := isOnline_updateUser_of_ne _ _ _ _ _ hk
    have h2 : mapGet (userConnected s socketId userId now true).1.activeUsers u =
        mapGet s.activeUsers u := mapGet_mapSet_of_ne _ _ _ _ hk
    rw [h1] at hu ⊢
    rw [h2]
    exact h u hu

theorem presenceConsistent_disconnect (s : ServerState) (socketId : SocketId) (now : Nat)
    (hkeys : KeysDistinct s) (h : PresenceConsistent s) :
    PresenceConsistent (disconnect s socketId now true).1 := by
  unfold disconnect
  cases hfind : s.activeUsers.find? (fun entry => entry.2 = socketId) with
  | none => exact h
  | some e =>
    obtain ⟨k, v⟩ := e
    intro u hu
    by_cases hk : u = k
    · subst hk
      have h1 : isOnline (updateUser s.users u false now) u =
          (isOnline s.users u).map fun _ => false := isOnline_updateUser_self _ _ _ _
      have h2 : mapGet (mapDelete s.activeUsers u) u = none :=
        mapGet_mapDelete_self _ _ hkeys
      simp only [if_true] at hu ⊢
      rw [h1] at hu ⊢
      rw [h2]
      cases hs : isOnline s.users u with
      | none => simp [hs] at hu
      | some b => simp
    · have h1 : isOnline (updateUser s.users k false now) u = isOnline s.users u :=
        isOnline_updateUser_of_ne _ _ _ _ _ hk
      have h2 : mapGet (mapDelete s.activeUsers k) u = mapGet s.activeUsers u :=
        mapGet_mapDelete_of_ne _ _ _ hk
      simp only [if_true] at hu ⊢
      rw [h1] at hu ⊢
      rw [h2]
      exact h u hu

theorem presenceConsistent_step (E : Crypto) (s : ServerState) (ev : ServerEvent)
    (hkeys : KeysDistinct s) (h : PresenceConsistent s) (hdb : ev.presenceRecorded = true) :
    PresenceConsistent (step E s ev) := by
  cases ev with
  | userConnected socketId userId now dbOk =>
    simp only [ServerEvent.presenceRecorded] at hdb
    subst hdb
    exact presenceConsistent_userConnected s socketId userId now h
  | sendMessage socketId data env =>
    exact presenceConsistent_of_frame s _ h (sendMessage_frame E s socketId data env).1
      (sendMessage_frame E s socketId data env).2
  | messageDelivered data dbOk =>
    cases dbOk <;> exact presenceConsistent_of_frame s _ h rfl rfl
  | messagesRead data dbOk =>
    cases dbOk <;> exact presenceConsistent_of_frame s _ h rfl rfl
  | putMessagesRead roomId reqUserId dbOk =>
    cases dbOk <;> exact presenceConsistent_of_frame s _ h rfl rfl
  | typing data =>
    simp only [step, typing]
    split <;> exact h
  | stopTyping data =>
    simp only [step, stopTyping]
    split <;> exact h
  | disconnect socketId now dbOk =>
    simp only [ServerEvent.presenceRecorded] at hdb
    subst hdb
    exact presenceConsistent_disconnect s socketId now hkeys h

theorem presenceConsistent_run (E : Crypto) (events : List ServerEvent) :
    ∀ s : ServerState, KeysDistinct s → PresenceConsistent s →
      (∀ ev ∈ events, ev.presenceRecorded = true) →
      KeysDistinct (run E s events) ∧ PresenceConsistent (run E s events) := by
  induction events with
  | nil => exact fun s hk hc _ => ⟨hk, hc⟩
  | cons ev rest ih =>
    intro s hk hc hdb
    exact ih (step E s ev) (keysDistinct_step E s ev hk)
      (presenceConsistent_step E s ev hk hc (hdb ev (by simp)))
      (fun e he => hdb e (List.mem_cons_of_mem _ he))

theorem isOnline_of_all_offline :
    ∀ (l : List User) (u : JsString), (∀ x ∈ l, x.isOnline = false) → isOnline l u ≠ some true
  | [], _, _ => by simp [isOnline]
  | x :: rest, u, h => by
    by_cases hk : x._id = u
    · simp [isOnline, hk, h x (by simp)]
    · simp only [isOnline, hk, if_false]
      exact isOnline_of_all_offline rest u (fun y hy => h y (List.mem_cons_of_mem _ hy))

/-- C12: from a state with an empty registry and every user offline, after any sequence
of events in which the database update of every `user-connected` and `disconnect`
succeeds, the online flag of every user record is true exactly when the registry has an
entry for that user, and the registry holds at most one handle per user. -/
theorem presence_matches_registry (E : Crypto) (s0 : ServerState)
    (hreg : s0.activeUsers = []) (hoff : ∀ x ∈ s0.users, x.isOnline = false)
    (events : List ServerEvent) (hdb : ∀ ev ∈ events, ev.presenceRecorded = true) :
    (∀ u, (isOnline (run E s0 events).users u).isSome →
      (isOnline (run E s0 events).users u = some true ↔
        (mapGet (run E s0 events).activeUsers u).isSome)) ∧
    (∀ u h1 h2, (u, h1) ∈ (run E s0 events).activeUsers →
      (u, h2) ∈ (run E s0 events).activeUsers → h1 = h2) ∧
    ((run E s0 events).activeUsers.map Prod.fst).Nodup := by
  have hk0 : KeysDistinct s0 := by simp [KeysDistinct, hreg]
  have hc0 : PresenceConsistent s0 := by
    intro u _
    rw [hreg]
    simp [mapGet, isOnline_of_all_offline s0.users u hoff]
  obtain ⟨hk, hc⟩ := presenceConsistent_run E events s0 hk0 hc0 hdb
  refine ⟨hc, ?_, hk⟩
  intro u h1 h2 m1 m2
  have e1 := mapGet_of_mem _ u h1 hk m1
  have e2 := mapGet_of_mem _ u h2 hk m2
  rw [e1] at e2
  exact Option.some.inj e2

/-- C12 at `"alice"` connecting twice and `"bob"` once, and one connection closing. -/
theorem presence_matches_registry_witness :
    (isOnline (run demoCrypto demoTwoUsers demoPresenceEvents).users (js "bob") = some true ↔
        (mapGet (run demoCrypto demoTwoUsers demoPresenceEvents).activeUsers (js "bob")).isSome) ∧
      (isOnline (run demoCrypto demoTwoUsers demoPresenceEvents).users (js "alice") = some true ↔
        (mapGet (run demoCrypto demoTwoUsers demoPresenceEvents).activeUsers
          (js "alice")).isSome) :=
  ⟨(presence_matches_registry demoCrypto demoTwoUsers rfl (by decide) demoPresenceEvents
      (by decide)).1 (js "bob") (by decide),
    (presence_matches_registry demoCrypto demoTwoUsers rfl (by decide) demoPresenceEvents
      (by decide)).1 (js "alice") (by decide)⟩

/-! ### Fetching a room: failure and order -/

theorem decryptAll_eq_none (E : Crypto) (reqUserId : JsString) :
    ∀ l : List Message, decryptAll E reqUserId l = none ↔
      ∃ m ∈ l, decryptMessage E reqUserId m = none
  | [] => by simp [decryptAll]
  | x :: l => by
    have ih := decryptAll_eq_none E reqUserId l
    cases hx : decryptMessage E reqUserId x with
    | none => simp [decryptAll, hx]
    | some p =>
      cases hl : decryptAll E reqUserId l with
      | none =>
        have := ih.mp hl
        simp only [decryptAll, hx, hl, List.mem_cons, true_iff]
        obtain ⟨m, hm, hbad⟩ := this
        exact ⟨m, Or.inr hm, hbad⟩
      | some ps =>
        simp only [decryptAll, hx, hl, List.mem_cons, false_iff, reduceCtorEq]
        rintro ⟨m, hm | hm, hbad⟩
        · rw [hm, hx] at hbad
          cases hbad
        · have := ih.mpr ⟨m, hm, hbad⟩
          rw [hl] at this
          cases this

/-- C13, refuted as stated: in a room with one decryptable message and one whose envelope
has no separator, the decryptable message is not returned; the whole request ends with
status 500. -/
theorem getMessages_corrupt_record_aborts :
    (decryptMessage demoCrypto (js "bob") (demoCorruptRoom.messages.get ⟨0, by decide⟩)).isSome ∧
      decryptMessage demoCrypto (js "bob") (demoCorruptRoom.messages.get ⟨1, by decide⟩) = none ∧
      getMessages demoCrypto demoCorruptRoom (js "alice-bob") (js "bob") true =
        HttpResult.serverError := by
  decide

/-- C13, as the route behaves: `GET /api/messages/:roomId` ends with status 500, returning
no message at all, exactly when at least one message of the room cannot be decrypted for
the requester; no failure is reported per record. -/
theorem getMessages_serverError_iff (E : Crypto) (s : ServerState) (roomId reqUserId : JsString) :
    getMessages E s roomId reqUserId true = HttpResult.serverError ↔
      ∃ m ∈ s.messages, m.roomId = roomId ∧ decryptMessage E reqUserId m = none := by
  have key := decryptAll_eq_none E reqUserId (findRoom s.messages roomId)
  simp only [getMessages, if_true]
  cases hall : decryptAll E reqUserId (findRoom s.messages roomId) with
  | none =>
    obtain ⟨m, hm, hbad⟩ := key.mp hall
    obtain ⟨hm1, hm2⟩ := (mem_findRoom _ _ _).mp hm
    simp only [true_iff]
    exact ⟨m, hm1, hm2, hbad⟩
  | some out =>
    simp only [false_iff, reduceCtorEq]
    rintro ⟨m, hm1, hm2, hbad⟩
    have := key.mpr ⟨m, (mem_findRoom _ _ _).mpr ⟨hm1, hm2⟩, hbad⟩
    rw [hall] at this
    cases this

theorem decryptMessage_fields (E : Crypto) (reqUserId : JsString) (m : Message)
    (p : MessagePayload) (h : decryptMessage E reqUserId m = some p) :
    p.fields = m.fields := by
  unfold decryptMessage at h
  split at h
  · cases h
  · cases h
    rfl

theorem decryptAll_fields (E : Crypto) (reqUserId : JsString) :
    ∀ (l : List Message) (out : List MessagePayload), decryptAll E reqUserId l = some out →
      out.map MessagePayload.fields = l.map Message.fields
  | [], out, h => by
    simp only [decryptAll, Option.some.injEq] at h
    subst h
    rfl
  | x :: l, out, h => by
    cases hx : decryptMessage E reqUserId x with
    | none => simp [decryptAll, hx] at h
    | some p =>
      cases hl : decryptAll E reqUserId l with
      | none => simp [decryptAll, hx, hl] at h
      | some ps =>
        simp only [decryptAll, hx, hl, Option.some.injEq] at h
        subst h
        simp [decryptMessage_fields E reqUserId x p hx, decryptAll_fields E reqUserId l ps hl]

theorem findRoom_sorted (messages : List Message) (roomId : JsString) :
    ((findRoom messages roomId).map fun m => m.createdAt).Sorted (· ≤ ·) := by
  haveI : IsTotal Message (fun a b => a.createdAt ≤ b.createdAt) :=
    ⟨fun a b => Nat.le_total a.createdAt b.createdAt⟩
  haveI : IsTrans Message (fun a b => a.createdAt ≤ b.createdAt) :=
    ⟨fun _ _ _ hab hbc => Nat.le_trans hab hbc⟩
  have hs := List.sorted_insertionSort (fun a b : Message => a.createdAt ≤ b.createdAt)
    (messages.filter fun m => m.roomId = roomId)
  exact List.pairwise_map.mpr hs

theorem findRoom_perm (messages : List Message) (roomId : JsString) :
    (findRoom messages roomId).Perm (messages.filter fun m => m.roomId = roomId) :=
  List.perm_insertionSort _ _

/-- C14, refuted as stated: the room `"alice-bob"` of a store holds two messages, one of
them undecryptable, and the route returns neither: it ends with status 500. -/
theorem getMessages_corrupt_store_returns_nothing :
    ((findRoom demoCorruptRoom.messages (js "alice-bob")).map fun m => m._id) = [1, 2] ∧
      getMessages demoCrypto demoCorruptRoom (js "alice-bob") (js "alice") true =
        HttpResult.serverError := by
  decide

/-- C14, as the route behaves: when every message of the requested room decrypts for the
requester, the route answers with one result per stored message of that room and no
other: the results carry the ids, room ids, sender ids, receiver ids, statuses and
creation times of the room's messages unchanged, in ascending order of `createdAt`, and
the room's messages are a rearrangement of the stored messages whose `roomId` is the
requested one. -/
theorem getMessages_room_sorted (E : Crypto) (s : ServerState) (roomId reqUserId : JsString)
    (h : ∀ m ∈ s.messages, m.roomId = roomId → (decryptMessage E reqUserId m).isSome) :
    ∃ out, getMessages E s roomId reqUserId true = HttpResult.ok out ∧
      out.map MessagePayload.fields = (findRoom s.messages roomId).map Message.fields ∧
      (findRoom s.messages roomId).Perm (s.messages.filter fun m => m.roomId = roomId) ∧
      out.length = (s.messages.filter fun m => m.roomId = roomId).length ∧
      (out.map fun p => p.createdAt).Sorted (· ≤ ·) ∧
      ∀ p ∈ out, p.roomId = roomId := by
  cases hall : decryptAll E reqUserId (findRoom s.messages roomId) with
  | none =>
    obtain ⟨m, hm, hbad⟩ := (decryptAll_eq_none E reqUserId _).mp hall
    obtain ⟨hm1, hm2⟩ := (mem_findRoom _ _ _).mp hm
    have := h m hm1 hm2
    rw [hbad] at this
    cases this
  | some out =>
    have hf := decryptAll_fields E reqUserId _ out hall
    have hcreated : (out.map fun p => p.createdAt) =
        (findRoom s.messages roomId).map fun m => m.createdAt := by
      have := congrArg (List.map fun f : Nat × JsString × JsString × JsString × Status × Nat =>
        f.2.2.2.2.2) hf
      simpa [List.map_map, Function.comp_def, MessagePayload.fields, Message.fields] using this
    have hrooms : (out.map fun p => p.roomId) =
        (findRoom s.messages roomId).map fun m => m.roomId := by
      have := congrArg (List.map fun f : Nat × JsString × JsString × JsString × Status × Nat =>
        f.2.1) hf
      simpa [List.map_map, Function.comp_def, MessagePayload.fields, Message.fields] using this
    refine ⟨out, by simp [getMessages, hall], hf, findRoom_perm _ _, ?_, ?_, ?_⟩
    · have := congrArg List.length hf
      simp only [List.length_map] at this
      rw [this]
      exact (findRoom_perm _ _).length_eq
    · rw [hcreated]
      exact findRoom_sorted _ _
    · intro p hp
      have hmem : p.roomId ∈ out.map fun p => p.roomId := List.mem_map_of_mem _ hp
      rw [hrooms] at hmem
      obtain ⟨m, hm, e⟩ := List.mem_map.mp hmem
      rw [← e]
      exact ((mem_findRoom _ _ _).mp hm).2

/-- C14 at the room `"alice-bob"` after three sends, two of them in that room, the later
one stored first. -/
theorem getMessages_room_sorted_witness :
    ∃ out, getMessages demoCrypto (run demoCrypto ServerState.init demoThreeSends)
        (js "alice-bob") (js "bob") true = HttpResult.ok out ∧
      out.map MessagePayload.fields =
        [(3, js "alice-bob", js "alice", js "bob", Status.sent, 1000),
         (1, js "alice-bob", js "alice", js "bob", Status.sent, 2000)] := by
  obtain ⟨out, hout, hf, _⟩ := getMessages_room_sorted demoCrypto
    (run demoCrypto ServerState.init demoThreeSends) (js "alice-bob") (js "bob") (by decide)
  exact ⟨out, hout, hf.trans (by decide)⟩

/-! ### Room id of a stored message -/

/-- C15, refuted as stated: a request from `"alice"` to `"bob"` that names the room
`"carol-dave"` is stored under `"carol-dave"`, not under the derived `"alice-bob"`. -/
theorem sendMessage_stores_foreign_room :
    getRoomId demoWrongRoomSend.senderId demoWrongRoomSend.receiverId = js "alice-bob" ∧
      ((sendMessage demoCrypto ServerState.init ⟨1⟩ demoWrongRoomSend demoEnv).1.messages.map
        fun m => (m.senderId, m.receiverId, m.roomId)) =
        [(js "alice", js "bob", js "carol-dave")] := by
  decide

/-- C15, as the code behaves: the handler stores the message under the `roomId` of the
request, which it neither derives nor checks; the requests the client's
`handleSendMessage` emits carry `getRoomId(senderId, receiverId)` as their `roomId`. -/
theorem sendMessage_stores_supplied_room (E : Crypto) (s : ServerState) (socketId : SocketId)
    (data : SendData) (env : SendEnv) (c1 c2 : JsString)
    (h1 : encrypt E env.iv1 data.content = some c1)
    (h2 : encrypt E env.iv2 data.content = some c2)
    (hsave : env.save1 = true) (hfresh : ∀ m ∈ s.messages, m._id ≠ env.newId)
    (c : ClientState) (request : SendData)
    (hemit : ClientEmit.sendMessage request ∈ (handleSendMessage c).2) :
    (∃ stored, (sendMessage E s socketId data env).1.messages = s.messages ++ [stored] ∧
        stored._id = env.newId ∧ stored.senderId = data.senderId ∧
        stored.receiverId = data.receiverId ∧ stored.roomId = data.roomId) ∧
      request.roomId = getRoomId request.senderId request.receiverId := by
  constructor
  · obtain ⟨status, hst⟩ := sendMessage_messages E s socketId data env c1 c2 h1 h2 hsave hfresh
    exact ⟨_, hst, rfl, rfl, rfl, rfl⟩
  · unfold handleSendMessage at hemit
    split at hemit
    · simp at hemit
    · split at hemit
      · simp at hemit
      · simp only [List.mem_cons, ClientEmit.sendMessage.injEq, reduceCtorEq,
          List.mem_singleton, or_false, List.not_mem_nil] at hemit
        subst hemit
        rfl

/-- C15 at the request with a foreign room and at the client of `"alice"`. -/
theorem sendMessage_stores_supplied_room_witness :
    (∃ stored, (sendMessage demoCrypto ServerState.init ⟨1⟩ demoWrongRoomSend demoEnv).1.messages =
        ServerState.init.messages ++ [stored] ∧
        stored._id = demoEnv.newId ∧ stored.senderId = demoWrongRoomSend.senderId ∧
        stored.receiverId = demoWrongRoomSend.receiverId ∧
        stored.roomId = demoWrongRoomSend.roomId) ∧
      demoSend.roomId = getRoomId demoSend.senderId demoSend.receiverId :=
  sendMessage_stores_supplied_room demoCrypto ServerState.init ⟨1⟩ demoWrongRoomSend demoEnv
    demoEnvelope (hexEncode (demoIv 16) ++ [colon] ++ hexEncode [104, 105])
    (by decide) (by decide) (by decide) (by decide) demoClient demoSend (by decide)

/-! ### Malformed envelopes -/

theorem split_head_of_not_mem (sep : Nat) :
    ∀ a : JsString, sep ∉ a → (split sep a).get? 1 = none := by
  intro a h
  rw [split_of_not_mem sep a h]
  rfl

theorem hexDecode_hexEncode_append (z : Nat) (rest : JsString) (hz : hexVal z = none) :
    ∀ bs : List Byte, hexDecode (hexEncode bs ++ z :: rest) = bs
  | [] => by
    cases rest with
    | nil => simp [hexEncode, hexDecode]
    | cons b r => simp [hexEncode, hexDecode, hz]
  | b :: bs => by
    have h1 := hexVal_hexDigit (b.val / 16) (by omega)
    have h2 := hexVal_hexDigit (b.val % 16) (by omega)
    have hb : (16 * (b.val / 16) + b.val % 16) % 256 = b.val := by
      rw [Nat.div_add_mod]
      exact Nat.mod_eq_of_lt b.isLt
    have ih := hexDecode_hexEncode_append z rest hz bs
    show hexDecode (hexDigit (b.val / 16) :: hexDigit (b.val % 16) ::
      (hexEncode bs ++ z :: rest)) = b :: bs
    simp only [hexDecode, h1, h2, ih]
    congr 1
    exact Fin.ext hb

/-- C16, refuted as stated: an envelope followed by `":zz"` has three parts, the last not
hexadecimal, and `decrypt` returns the plaintext `"hi"` of the envelope; so does an
envelope with `"zz"` after its iv. -/
theorem decrypt_accepts_malformed :
    split colon (demoEnvelope ++ js ":zz") =
        [hexEncode (demoIv 0), hexEncode [104, 105], js "zz"] ∧
      decrypt demoCrypto (demoEnvelope ++ js ":zz") = some (js "hi") ∧
      decrypt demoCrypto (hexEncode (demoIv 0) ++ js "zz:" ++ hexEncode [104, 105]) =
        some (js "hi") := by
  decide

/-- C16, as `decrypt` behaves: an input without `":"` is rejected; parts after the second
are ignored, and hexadecimal decoding stops silently at the first pair that is not
hexadecimal (in the low bytes of its code units), so an envelope with a third part, and
one with such a pair after its iv and after its ciphertext, give what the well-formed
envelope gives: the text of the bytes the decipher returns for that iv and ciphertext. -/
theorem decrypt_malformed (E : Crypto) (text : JsString) (hno : colon ∉ text)
    (iv ct : List Byte) (extra : JsString) (z : Nat) (hz : hexVal z = none)
    (hzc : z ≠ colon) :
    decrypt E text = none ∧
      decrypt E (hexEncode iv ++ [colon] ++ hexEncode ct ++ [colon] ++ extra) =
        decrypt E (hexEncode iv ++ [colon] ++ hexEncode ct) ∧
      decrypt E ((hexEncode iv ++ [z, z]) ++ [colon] ++ (hexEncode ct ++ [z, z])) =
        decrypt E (hexEncode iv ++ [colon] ++ hexEncode ct) ∧
      decrypt E (hexEncode iv ++ [colon] ++ hexEncode ct) =
        (E.decipher E.key iv ct).map utf8Decode := by
  refine ⟨?_, ?_, ?_, decrypt_envelope E iv ct⟩
  · unfold decrypt
    simp [split_of_not_mem colon text hno]
  · have hs : split colon (hexEncode iv ++ [colon] ++ hexEncode ct ++ [colon] ++ extra) =
        hexEncode iv :: hexEncode ct :: split colon extra := by
      have e : hexEncode iv ++ [colon] ++ hexEncode ct ++ [colon] ++ extra =
          hexEncode iv ++ colon :: (hexEncode ct ++ colon :: extra) := by simp
      rw [e, split_append_sep colon _ _ (colon_not_mem_hexEncode iv),
        split_append_sep colon _ _ (colon_not_mem_hexEncode ct)]
    rw [decrypt_envelope]
    unfold decrypt
    rw [hs]
    simp only [List.headD_cons, List.get?_cons_succ, List.get?_cons_zero,
      hexDecode_hexEncode, hexEncode_length_even, if_true]
    cases E.decipher E.key iv ct <;> rfl
  · have hiv : colon ∉ hexEncode iv ++ [z, z] := by
      simp only [List.mem_append, List.mem_cons, List.mem_singleton, List.not_mem_nil,
        or_false, or_self, not_or]
      exact ⟨colon_not_mem_hexEncode iv, fun e => hzc e.symm⟩
    have hct : colon ∉ hexEncode ct ++ [z, z] := by
      simp only [List.mem_append, List.mem_cons, List.mem_singleton, List.not_mem_nil,
        or_false, or_self, not_or]
      exact ⟨colon_not_mem_hexEncode ct, fun e => hzc e.symm⟩
    have hs : split colon ((hexEncode iv ++ [z, z]) ++ [colon] ++ (hexEncode ct ++ [z, z])) =
        [hexEncode iv ++ [z, z], hexEncode ct ++ [z, z]] := by
      rw [List.append_assoc, List.singleton_append, split_append_sep colon _ _ hiv,
        split_of_not_mem colon _ hct]
    have hlen : (hexEncode ct ++ [z, z]).length % 2 = 0 := by
      have := hexEncode_length_even ct
      simp only [List.length_append, List.length_cons, List.length_nil]
      omega
    rw [decrypt_envelope]
    unfold decrypt
    rw [hs]
    simp only [List.headD_cons, List.get?_cons_succ, List.get?_cons_zero, hlen, if_true,
      hexDecode_hexEncode_append z [z] hz]
    cases E.decipher E.key iv ct <;> rfl

/-- C16 at the text `"zz"` and at the envelope of `"hi"` with the part `"junk"` added. -/
theorem decrypt_malformed_witness :
    decrypt demoCrypto (js "zz") = none ∧
      decrypt demoCrypto
          (hexEncode (demoIv 0) ++ [colon] ++ hexEncode [104, 105] ++ [colon] ++ js "junk") =
        decrypt demoCrypto (hexEncode (demoIv 0) ++ [colon] ++ hexEncode [104, 105]) ∧
      decrypt demoCrypto
          ((hexEncode (demoIv 0) ++ [122, 122]) ++ [colon] ++ (hexEncode [104, 105] ++ [122, 122])) =
        decrypt demoCrypto (hexEncode (demoIv 0) ++ [colon] ++ hexEncode [104, 105]) ∧
      decrypt demoCrypto (hexEncode (demoIv 0) ++ [colon] ++ hexEncode [104, 105]) =
        (demoCrypto.decipher demoCrypto.key (demoIv 0) [104, 105]).map utf8Decode :=
  decrypt_malformed demoCrypto (js "zz") (by decide) (demoIv 0) [104, 105] (js "junk") 122
    (by decide) (by decide)

/-! ### Failures of `send-message` and unknown acknowledgements -/

/-- C17, refuted as stated: with `"bob"` registered and the second save failing, the
handler emits `message-error` and nothing else, and the store, empty before, holds the
message, with status `sent`. -/
theorem sendMessage_second_save_partial :
    demoBobOnline.messages = [] ∧
      (sendMessage demoCrypto demoBobOnline ⟨1⟩ demoSend demoEnvSecondSaveFails).2 =
        [Emit.toSocket ⟨1⟩ Event.messageError] ∧
      ((sendMessage demoCrypto demoBobOnline ⟨1⟩ demoSend demoEnvSecondSaveFails).1.messages.map
        fun m => (m._id, m.status)) = [(1, Status.sent)] := by
  decide

/-- C17, as the handler behaves: whenever `message-error` is emitted it is the only
emission, so neither `receive-message` nor `message-sent` is emitted; the store is as
before the request, unless the failing call is the second save, for a registered receiver,
in which case the message inserted by the first save stays stored with status `sent`. -/
theorem sendMessage_error (E : Crypto) (s : ServerState) (socketId : SocketId)
    (data : SendData) (env : SendEnv)
    (herr : Emit.toSocket socketId Event.messageError ∈ (sendMessage E s socketId data env).2) :
    (sendMessage E s socketId data env).2 = [Emit.toSocket socketId Event.messageError] ∧
      (env.save1 = false → (sendMessage E s socketId data env).1 = s) ∧
      ((sendMessage E s socketId data env).1 = s ∨
        (env.save1 = true ∧ env.save2 = false ∧
          (mapGet s.activeUsers data.receiverId).isSome ∧
          ∃ c1 c2, encrypt E env.iv1 data.content = some c1 ∧
            encrypt E env.iv2 data.content = some c2 ∧
            (newMessage data env c1 c2).status = Status.sent ∧
            (sendMessage E s socketId data env).1 =
              { s with messages := s.messages ++ [newMessage data env c1 c2] })) := by
  have hfail : sendMessage E s socketId data env =
      (s, [Emit.toSocket socketId Event.messageError]) →
      (sendMessage E s socketId data env).2 = [Emit.toSocket socketId Event.messageError] ∧
      (env.save1 = false → (sendMessage E s socketId data env).1 = s) ∧
      ((sendMessage E s socketId data env).1 = s ∨
        (env.save1 = true ∧ env.save2 = false ∧
          (mapGet s.activeUsers data.receiverId).isSome ∧
          ∃ c1 c2, encrypt E env.iv1 data.content = some c1 ∧
            encrypt E env.iv2 data.content = some c2 ∧
            (newMessage data env c1 c2).status = Status.sent ∧
            (sendMessage E s socketId data env).1 =
              { s with messages := s.messages ++ [newMessage data env c1 c2] })) := by
    intro hv
    rw [hv]
    exact ⟨rfl, fun _ => rfl, Or.inl rfl⟩
  have hopt : ∀ o : Option JsString, o = none ∨ ∃ c, o = some c := fun o => by
    cases o
    · exact Or.inl rfl
    · exact Or.inr ⟨_, rfl⟩
  rcases hopt (encrypt E env.iv1 data.content) with he1 | ⟨c1, he1⟩
  · exact hfail (by simp [sendMessage, he1])
  rcases hopt (encrypt E env.iv2 data.content) with he2 | ⟨c2, he2⟩
  · exact hfail (by simp [sendMessage, he1, he2])
  by_cases hok : env.save1 = true ∧ ∀ m ∈ s.messages, m._id ≠ env.newId
  · have hreg : mapGet s.activeUsers data.receiverId = none ∨
        ∃ r, mapGet s.activeUsers data.receiverId = some r := by
      cases mapGet s.activeUsers data.receiverId
      · exact Or.inl rfl
      · exact Or.inr ⟨_, rfl⟩
    rcases hreg with hreg | ⟨r, hreg⟩
    · rw [sendMessage_offline E s socketId data env c1 c2 he1 he2 hok.1 hok.2 hreg] at herr
      simp at herr
    · rcases Bool.eq_false_or_eq_true env.save2 with hs2 | hs2
      · rw [sendMessage_online E s socketId data env c1 c2 r he1 he2 hok.1 hok.2 hreg hs2]
          at herr
        simp at herr
      · have hv := sendMessage_online_save2_fails E s socketId data env c1 c2 r he1 he2
          hok.1 hok.2 hreg hs2
        rw [hv]
        refine ⟨rfl, fun hf => ?_,
          Or.inr ⟨hok.1, hs2, by simp [hreg], c1, c2, he1, he2, rfl, rfl⟩⟩
        rw [hok.1] at hf
        cases hf
  · exact hfail (by simp only [sendMessage, he1, he2, if_neg hok])

/-- C17 at a failing second save with `"bob"` registered. -/
theorem sendMessage_error_witness :
    (sendMessage demoCrypto demoBobOnline ⟨1⟩ demoSend demoEnvSecondSaveFails).2 =
      [Emit.toSocket ⟨1⟩ Event.messageError] :=
  (sendMessage_error demoCrypto demoBobOnline ⟨1⟩ demoSend demoEnvSecondSaveFails
    (by decide)).1

/-- C18, refuted as stated: with `"alice"` registered on connection 1 and an empty store,
the acknowledgement of the unknown id 99 leaves the store empty and still emits
`message-status-update` to connection 1. -/
theorem messageDelivered_unknown_id_emits :
    demoAliceOnline.messages = [] ∧
      messageDelivered demoAliceOnline ⟨99, js "alice"⟩ true =
        (demoAliceOnline,
          [Emit.toSocket ⟨1⟩ (Event.messageStatusUpdate 99 Status.delivered)]) := by
  decide

/-- C18, as the handler behaves: an acknowledgement of an id that is not in the store
leaves the whole state unchanged; it emits nothing when the named sender has no registry
entry, and `message-status-update` for that id to the sender's connection when it has. -/
theorem messageDelivered_unknown_id (s : ServerState) (data : DeliveredData)
    (hunknown : ∀ m ∈ s.messages, m._id ≠ data.messageId) :
    (messageDelivered s data true).1 = s ∧
      (mapGet s.activeUsers data.senderId = none → (messageDelivered s data true).2 = []) ∧
      (∀ senderSocketId, mapGet s.activeUsers data.senderId = some senderSocketId →
        (messageDelivered s data true).2 =
          [Emit.toSocket senderSocketId
            (Event.messageStatusUpdate data.messageId Status.delivered)]) := by
  refine ⟨?_, ?_, ?_⟩
  · simp [messageDelivered, updateStatusById_of_fresh _ _ _ hunknown]
  · intro h
    simp [messageDelivered, h]
  · intro r h
    simp [messageDelivered, h]

/-- C18 at the unknown id 99 in the initial state. -/
theorem messageDelivered_unknown_id_witness :
    (messageDelivered ServerState.init ⟨99, js "alice"⟩ true).1 = ServerState.init :=
  (messageDelivered_unknown_id ServerState.init ⟨99, js "alice"⟩
    (fun m hm => by simp [ServerState.init] at hm)).1

/-! ### Typing signals -/

/-- C19: `typing` and `stop-typing` emit the received payload, unchanged, as `user-typing`
and `user-stop-typing` to the connection registered for `receiverId` when there is one and
emit nothing when there is none; in both cases the state (registry, users, messages) is
returned as it was, and the handlers have no failing branch. -/
theorem typing_relay (s : ServerState) (data : TypingData) :
    (typing s data).1 = s ∧ (stopTyping s data).1 = s ∧
      (∀ receiverSocketId, mapGet s.activeUsers data.receiverId = some receiverSocketId →
        (typing s data).2 = [Emit.toSocket receiverSocketId (Event.userTyping data)] ∧
        (stopTyping s data).2 =
          [Emit.toSocket receiverSocketId (Event.userStopTyping data)]) ∧
      (mapGet s.activeUsers data.receiverId = none →
        (typing s data).2 = [] ∧ (stopTyping s data).2 = []) := by
  unfold typing stopTyping
  cases h : mapGet s.activeUsers data.receiverId with
  | none => simp
  | some r => simp

/-! ### Distinct envelopes -/

theorem hexEncode_injective (a b : List Byte) (h : hexEncode a = hexEncode b) : a = b := by
  rw [← hexDecode_hexEncode a, h, hexDecode_hexEncode]

/-- C20: with the drawn iv as an input, two calls of `encrypt` on the same plaintext under
the same key with distinct ivs (of any length, so also of 16 bytes) return different
envelopes whenever they return. -/
theorem encrypt_distinct_iv (E : Crypto) (text : JsString) (iv1 iv2 : List Byte)
    (e1 e2 : JsString) (hne : iv1 ≠ iv2) (h1 : encrypt E iv1 text = some e1)
    (h2 : encrypt E iv2 text = some e2) : e1 ≠ e2 := by
  unfold encrypt at h1 h2
  cases hc1 : E.cipher E.key iv1 (utf8Encode text) with
  | none => simp [hc1] at h1
  | some ct1 =>
    cases hc2 : E.cipher E.key iv2 (utf8Encode text) with
    | none => simp [hc2] at h2
    | some ct2 =>
      simp only [hc1, hc2, Option.some.injEq] at h1 h2
      intro heq
      have hs1 := split_envelope iv1 ct1
      have hs2 := split_envelope iv2 ct2
      rw [h1, heq, ← h2, hs2] at hs1
      have hiv : hexEncode iv2 = hexEncode iv1 := (List.cons.inj hs1).1
      exact hne (hexEncode_injective _ _ hiv).symm

/-- C20 at `"hi"` with two distinct ivs of 16 bytes. -/
theorem encrypt_distinct_iv_witness :
    hexEncode (demoIv 0) ++ [colon] ++ hexEncode [104, 105] ≠
      hexEncode (demoIv 16) ++ [colon] ++ hexEncode [104, 105] :=
  encrypt_distinct_iv demoCrypto (js "hi") (demoIv 0) (demoIv 16) _ _ (by decide)
    (by decide) (by decide)

/-! ### Order of the user list -/

/-- C21, refuted as stated: for `"alice"`, `"carol"` has no unread message and a last
message at time 2000, `"bob"` has one unread message and a last message at time 1000, and
the list puts `"carol"` before `"bob"`. -/
theorem getUsers_unread_not_first :
    getUsers demoChatList (js "alice") true =
      HttpResult.ok
        [{ user := ⟨js "carol", false, 3⟩, unreadCount := 0, lastMessage := some 2000 },
         { user := ⟨js "bob", false, 2⟩, unreadCount := 1, lastMessage := some 1000 }] := by
  decide

theorem filter_time_orderedInsert (t : Nat) (a : UserListEntry) :
    ∀ l : List UserListEntry,
      (l.orderedInsert (fun a b => compareUsers a b ≤ 0) a).filter (fun e => decide (e.time = t)) =
        (a :: l).filter (fun e => decide (e.time = t))
  | [] => rfl
  | b :: l => by
    by_cases hab : compareUsers a b ≤ 0
    · simp only [List.orderedInsert, if_pos hab]
    · have hlt : a.time < b.time := by unfold compareUsers at hab; omega
      have ih := filter_time_orderedInsert t a l
      simp only [List.orderedInsert, if_neg hab, List.filter_cons] at ih ⊢
      by_cases hb : b.time = t
      · have ha : ¬ a.time = t := by omega
        simp only [hb, ha, decide_True, decide_False, if_true] at ih ⊢
        rw [ih]
        simp
      · simp only [hb, decide_False] at ih ⊢
        rw [ih]
        simp

theorem filter_time_insertionSort (t : Nat) :
    ∀ l : List UserListEntry,
      (l.insertionSort (fun a b => compareUsers a b ≤ 0)).filter (fun e => decide (e.time = t)) =
        l.filter (fun e => decide (e.time = t))
  | [] => rfl
  | a :: l => by
    rw [List.insertionSort, filter_time_orderedInsert, List.filter_cons, List.filter_cons,
      filter_time_insertionSort t l]

theorem map_usersWithData (s s' : ServerState) (reqUserId : JsString)
    (husers : s'.users = s.users)
    (hlast : ∀ u ∈ s.users, findLastMessage s'.messages (serverRoomId reqUserId u._id) =
      findLastMessage s.messages (serverRoomId reqUserId u._id)) :
    (usersWithData s' reqUserId).map (fun e => (e.user, e.lastMessage)) =
      (usersWithData s reqUserId).map (fun e => (e.user, e.lastMessage)) := by
  unfold usersWithData
  rw [husers, List.map_map, List.map_map]
  apply List.map_congr_left
  intro u hu
  have := hlast u (List.mem_of_mem_filter hu)
  simp [Function.comp, this]

/-- C21, as the route behaves: the list holds the entries of the users other than the
requester, rearranged by last message time alone, most recent first; an entry without a
last message counts as time 0, so only entries of time 0 follow it. The rearrangement is
stable (entries of equal time keep the order of `User.find`), and the unread count takes
no part: a database with the same users and the same last message times gives the same
order of users, whatever its unread counts. -/
theorem getUsers_sorted_by_time (s : ServerState) (reqUserId : JsString) :
    ∃ out, getUsers s reqUserId true = HttpResult.ok out ∧
      out.Perm (usersWithData s reqUserId) ∧
      out.Pairwise (fun a b => b.time ≤ a.time) ∧
      (∀ front a back, out = front ++ a :: back → a.lastMessage = none →
        ∀ b ∈ back, b.time = 0) ∧
      (∀ t, out.filter (fun e => decide (e.time = t)) =
        (usersWithData s reqUserId).filter (fun e => decide (e.time = t))) ∧
      (∀ s' : ServerState, s'.users = s.users →
        (∀ u ∈ s.users, findLastMessage s'.messages (serverRoomId reqUserId u._id) =
          findLastMessage s.messages (serverRoomId reqUserId u._id)) →
        ∃ out', getUsers s' reqUserId true = HttpResult.ok out' ∧
          out'.map (fun e => (e.user, e.lastMessage)) =
            out.map (fun e => (e.user, e.lastMessage))) := by
  haveI : IsTotal UserListEntry (fun a b => compareUsers a b ≤ 0) :=
    ⟨fun a b => by unfold compareUsers; omega⟩
  haveI : IsTrans UserListEntry (fun a b => compareUsers a b ≤ 0) :=
    ⟨fun a b c hab hbc => by unfold compareUsers at *; omega⟩
  have hsorted := List.sorted_insertionSort (fun a b : UserListEntry => compareUsers a b ≤ 0)
    (usersWithData s reqUserId)
  have hpair : ((usersWithData s reqUserId).insertionSort
      fun a b => compareUsers a b ≤ 0).Pairwise (fun a b => b.time ≤ a.time) :=
    List.Pairwise.imp (fun {a b} h => by unfold compareUsers at h; omega) hsorted
  refine ⟨_, by simp [getUsers], List.perm_insertionSort _ _, hpair, ?_,
    fun t => filter_time_insertionSort t _, ?_⟩
  · intro front a back hout hnone b hb
    rw [hout] at hpair
    have h1 := (List.pairwise_append.mp hpair).2.1
    have h2 := (List.pairwise_cons.mp h1).1 b hb
    have ha : a.time = 0 := by simp [UserListEntry.time, hnone]
    omega
  · intro s' husers hlast
    refine ⟨(usersWithData s' reqUserId).insertionSort (fun a b => compareUsers a b ≤ 0),
      by simp [getUsers], ?_⟩
    have hrel : ∀ l : List UserListEntry, ∀ a ∈ l, ∀ b ∈ l,
        compareUsers a b ≤ 0 ↔
          compareUsers ⟨(a.user, a.lastMessage).1, 0, (a.user, a.lastMessage).2⟩
            ⟨(b.user, b.lastMessage).1, 0, (b.user, b.lastMessage).2⟩ ≤ 0 :=
      fun _ _ _ _ _ => Iff.rfl
    rw [List.map_insertionSort (fun a b => compareUsers a b ≤ 0)
        (fun a b : User × Option Nat => compareUsers ⟨a.1, 0, a.2⟩ ⟨b.1, 0, b.2⟩ ≤ 0)
        (fun e => (e.user, e.lastMessage)) _ (hrel _),
      List.map_insertionSort (fun a b => compareUsers a b ≤ 0)
        (fun a b : User × Option Nat => compareUsers ⟨a.1, 0, a.2⟩ ⟨b.1, 0, b.2⟩ ≤ 0)
        (fun e => (e.user, e.lastMessage)) _ (hrel _),
      map_usersWithData s s' reqUserId husers hlast]

/-! ### The registry after a disconnect -/

theorem mem_mapDelete :
    ∀ (l : List (JsString × SocketId)) (k : JsString) (e : JsString × SocketId),
      (l.map Prod.fst).Nodup → e ∈ mapDelete l k → e ∈ l ∧ e.1 ≠ k
  | [], _, _, _, h => by simp [mapDelete] at h
  | (k', v') :: rest, k, e, hnd, h => by
    simp only [List.map_cons, List.nodup_cons] at hnd
    by_cases hk : k' = k
    · simp only [mapDelete, hk, if_true] at h
      refine ⟨List.mem_cons_of_mem _ h, fun he => hnd.1 ?_⟩
      rw [hk, ← he]
      exact List.mem_map_of_mem Prod.fst h
    · simp only [mapDelete, hk, if_false, List.mem_cons] at h
      rcases h with h | h
      · subst h
        exact ⟨by simp, hk⟩
      · obtain ⟨h1, h2⟩ := mem_mapDelete rest k e hnd.2 h
        exact ⟨List.mem_cons_of_mem _ h1, h2⟩

theorem mem_mapDelete_of_ne :
    ∀ (l : List (JsString × SocketId)) (k : JsString) (e : JsString × SocketId),
      e ∈ l → e.1 ≠ k → e ∈ mapDelete l k
  | [], _, _, h, _ => by simp at h
  | (k', v') :: rest, k, e, h, hne => by
    by_cases hk : k' = k
    · simp only [mapDelete, hk, if_true]
      rcases List.mem_cons.mp h with h | h
      · exact absurd (by rw [h, hk]) hne
      · exact h
    · simp only [mapDelete, hk, if_false, List.mem_cons]
      rcases List.mem_cons.mp h with h | h
      · exact Or.inl h
      · exact Or.inr (mem_mapDelete_of_ne rest k e h hne)

/-- When at most one entry of the registry has the value `h`, no entry has it after the
disconnect of `h`: the handler clears connections that registered one user. -/
theorem disconnect_clears_unshared_handle (s : ServerState) (h : SocketId) (now : Nat)
    (dbOk : Bool) (hkeys : KeysDistinct s)
    (hone : ∀ e1 ∈ s.activeUsers, ∀ e2 ∈ s.activeUsers, e1.2 = h → e2.2 = h → e1 = e2) :
    ∀ e ∈ (disconnect s h now dbOk).1.activeUsers, e.2 ≠ h := by
  intro e he
  rcases hfind : s.activeUsers.find? (fun entry => entry.2 = h) with _ | ⟨k, v⟩
  · have hs : disconnect s h now dbOk = (s, []) := by simp [disconnect, hfind]
    rw [hs] at he
    have := List.find?_eq_none.mp hfind e he
    simpa using this
  · have hreg : (disconnect s h now dbOk).1.activeUsers = mapDelete s.activeUsers k := by
      cases dbOk <;> simp [disconnect, hfind]
    rw [hreg] at he
    have hmem : (k, v) ∈ s.activeUsers := List.mem_of_find?_eq_some hfind
    have hv : v = h := by simpa using List.find?_some hfind
    intro heq
    obtain ⟨h1, h2⟩ := mem_mapDelete s.activeUsers k e hkeys he
    have := hone e h1 (k, v) hmem heq hv
    exact h2 (by rw [this])

/-- C22, refuted as stated: after `"alice"` and `"bob"` registered on connection 7 and it
closed, the registry still maps `"bob"` to connection 7 and `"bob"` is still recorded
online; the handler deleted the entry of `"alice"` only and broadcast only her offline
status. -/
theorem disconnect_keeps_shared_handle :
    (run demoCrypto demoTwoUsers demoSharedHandleEvents).activeUsers = [(js "bob", ⟨7⟩)] ∧
      isOnline (run demoCrypto demoTwoUsers demoSharedHandleEvents).users (js "bob") =
        some true ∧
      isOnline (run demoCrypto demoTwoUsers demoSharedHandleEvents).users (js "alice") =
        some false ∧
      (disconnect (run demoCrypto demoTwoUsers (demoSharedHandleEvents.take 2)) ⟨7⟩ 30 true).2 =
        [Emit.broadcast (Event.userStatusOffline (js "alice") 30)] := by
  decide

/-- C22, as the handler behaves: the disconnect of `h` changes nothing when no entry has
the value `h`; otherwise it deletes the entry of the first user registered on `h`, in
registration order, and keeps every other entry, also those of further users registered on
`h`. So no entry maps a user to `h` afterwards when at most one entry did before. -/
theorem disconnect_removes_first_entry (s : ServerState) (h : SocketId) (now : Nat)
    (dbOk : Bool) (hkeys : KeysDistinct s) :
    (s.activeUsers.find? (fun entry => entry.2 = h) = none →
        (disconnect s h now dbOk).1.activeUsers = s.activeUsers) ∧
      (∀ u v, s.activeUsers.find? (fun entry => entry.2 = h) = some (u, v) →
        v = h ∧ (u, h) ∈ s.activeUsers ∧
        ∀ e, e ∈ (disconnect s h now dbOk).1.activeUsers ↔ (e ∈ s.activeUsers ∧ e.1 ≠ u)) ∧
      ((∀ e1 ∈ s.activeUsers, ∀ e2 ∈ s.activeUsers, e1.2 = h → e2.2 = h → e1 = e2) →
        ∀ e ∈ (disconnect s h now dbOk).1.activeUsers, e.2 ≠ h) := by
  refine ⟨?_, ?_, disconnect_clears_unshared_handle s h now dbOk hkeys⟩
  · intro hfind
    simp [disconnect, hfind]
  · intro u v hfind
    have hv : v = h := by simpa using List.find?_some hfind
    have hmem : (u, v) ∈ s.activeUsers := List.mem_of_find?_eq_some hfind
    have hreg : (disconnect s h now dbOk).1.activeUsers = mapDelete s.activeUsers u := by
      cases dbOk <;> simp [disconnect, hfind]
    refine ⟨hv, hv ▸ hmem, fun e => ?_⟩
    rw [hreg]
    exact ⟨fun he => mem_mapDelete s.activeUsers u e hkeys he,
      fun he => mem_mapDelete_of_ne s.activeUsers u e he.1 he.2⟩

/-- C22 at the registry with `"alice"` and `"bob"` both on connection 7: the entry of
`"bob"` is in the registry after the disconnect. -/
theorem disconnect_removes_first_entry_witness :
    (js "bob", (⟨7⟩ : SocketId)) ∈
      (disconnect (run demoCrypto demoTwoUsers (demoSharedHandleEvents.take 2)) ⟨7⟩ 30
        true).1.activeUsers :=
  ((disconnect_removes_first_entry (run demoCrypto demoTwoUsers (demoSharedHandleEvents.take 2))
      ⟨7⟩ 30 true
      (keysDistinct_run demoCrypto _ demoTwoUsers (by simp [KeysDistinct, demoTwoUsers]))).2.1
      (js "alice") ⟨7⟩ (by decide)).2.2 (js "bob", ⟨7⟩) |>.mpr
    ⟨by decide, by decide⟩

/-! ### The room id determines the pair -/

theorem join_dash_injective (x y x' y' : JsString) (hx : 45 ∉ x) (hy : 45 ∉ y)
    (hx' : 45 ∉ x') (hy' : 45 ∉ y') (h : x ++ dash ++ y = x' ++ dash ++ y') :
    x = x' ∧ y = y' := by
  have e1 : split 45 (x ++ dash ++ y) = [x, y] := by
    rw [List.append_assoc, show dash ++ y = 45 :: y from rfl, split_append_sep 45 y x hx,
      split_of_not_mem 45 y hy]
  have e2 : split 45 (x' ++ dash ++ y') = [x', y'] := by
    rw [List.append_assoc, show dash ++ y' = 45 :: y' from rfl, split_append_sep 45 y' x' hx',
      split_of_not_mem 45 y' hy']
  rw [h, e2] at e1
  simp only [List.cons.injEq, and_true] at e1
  exact ⟨e1.1.symm, e1.2.symm⟩

theorem getRoomId_pair (A B C D : JsString) (hA : 45 ∉ A) (hB : 45 ∉ B) (hC : 45 ∉ C)
    (hD : 45 ∉ D) (h : getRoomId A B = getRoomId C D) :
    (A = C ∧ B = D) ∨ (A = D ∧ B = C) := by
  rw [getRoomId_eq, getRoomId_eq] at h
  by_cases h1 : jsLess B A = true <;> by_cases h2 : jsLess D C = true
  · simp only [h1, h2, if_true] at h
    obtain ⟨e1, e2⟩ := join_dash_injective _ _ _ _ hB hA hD hC h
    exact Or.inl ⟨e2, e1⟩
  · simp only [h1, h2, if_true, if_false] at h
    obtain ⟨e1, e2⟩ := join_dash_injective _ _ _ _ hB hA hC hD h
    exact Or.inr ⟨e2, e1⟩
  · simp only [h1, h2, if_true, if_false] at h
    obtain ⟨e1, e2⟩ := join_dash_injective _ _ _ _ hA hB hD hC h
    exact Or.inr ⟨e1, e2⟩
  · simp only [h1, h2, if_false] at h
    obtain ⟨e1, e2⟩ := join_dash_injective _ _ _ _ hA hB hC hD h
    exact Or.inl ⟨e1, e2⟩

theorem decryptAll_mem (E : Crypto) (reqUserId : JsString) :
    ∀ (l : List Message) (out : List MessagePayload), decryptAll E reqUserId l = some out →
      ∀ p ∈ out, ∃ m ∈ l, decryptMessage E reqUserId m = some p
  | [], out, h, p, hp => by
    simp only [decryptAll, Option.some.injEq] at h
    subst h
    simp at hp
  | x :: l, out, h, p, hp => by
    cases hx : decryptMessage E reqUserId x with
    | none => simp [decryptAll, hx] at h
    | some px =>
      cases hl : decryptAll E reqUserId l with
      | none => simp [decryptAll, hx, hl] at h
      | some ps =>
        simp only [decryptAll, hx, hl, Option.some.injEq] at h
        subst h
        rcases List.mem_cons.mp hp with rfl | hp'
        · exact ⟨x, by simp, hx⟩
        · obtain ⟨m, hm, hmp⟩ := decryptAll_mem E reqUserId l ps hl p hp'
          exact ⟨m, List.mem_cons_of_mem _ hm, hmp⟩

/-- With a separator inside an identity the room id does not determine the pair: the
pairs `("a-b", "c")` and `("a", "b-c")` have the room id `"a-b-c"`. -/
theorem getRoomId_collision_with_dash :
    getRoomId (js "a-b") (js "c") = getRoomId (js "a") (js "b-c") := by
  decide

/-- C23, refuted as stated: a message from `"alice"` to `"bob"` sent with the room id of
`"carol"` and `"dave"` is stored under it, and the fetch of the room of `"carol"` and
`"dave"` returns that message of another pair. -/
theorem getMessages_mixes_foreign_room :
    getRoomId (js "carol") (js "dave") = js "carol-dave" ∧
      getMessages demoCrypto
          (sendMessage demoCrypto ServerState.init ⟨1⟩ demoWrongRoomSend demoEnv).1
          (getRoomId (js "carol") (js "dave")) (js "carol") true =
        HttpResult.ok
          [{ _id := 1, roomId := js "carol-dave", senderId := js "alice",
             receiverId := js "bob", content := js "hi", status := Status.sent,
             createdAt := 1000 }] := by
  decide

/-- C23, as the code behaves: for identities without `"-"`, equal room ids mean the same
unordered pair; and in a store whose messages carry the room id of their sender and
receiver, every message that the fetch of the room of A and B returns was exchanged
between A and B. -/
theorem getRoomId_determines_pair (A B C D : JsString) (hA : 45 ∉ A) (hB : 45 ∉ B)
    (hC : 45 ∉ C) (hD : 45 ∉ D) (h : getRoomId A B = getRoomId C D)
    (E : Crypto) (s : ServerState) (reqUserId : JsString) (out : List MessagePayload)
    (hstore : ∀ m ∈ s.messages, 45 ∉ m.senderId ∧ 45 ∉ m.receiverId ∧
      m.roomId = getRoomId m.senderId m.receiverId)
    (hfetch : getMessages E s (getRoomId A B) reqUserId true = HttpResult.ok out) :
    ((A = C ∧ B = D) ∨ (A = D ∧ B = C)) ∧
      ∀ p ∈ out, (p.senderId = A ∧ p.receiverId = B) ∨ (p.senderId = B ∧ p.receiverId = A) := by
  refine ⟨getRoomId_pair A B C D hA hB hC hD h, ?_⟩
  intro p hp
  have hall : decryptAll E reqUserId (findRoom s.messages (getRoomId A B)) = some out := by
    simp only [getMessages, if_true] at hfetch
    cases hd : decryptAll E reqUserId (findRoom s.messages (getRoomId A B)) with
    | none => simp [hd] at hfetch
    | some o =>
      simp only [hd, HttpResult.ok.injEq] at hfetch
      rw [hfetch]
  obtain ⟨m, hm, hmp⟩ := decryptAll_mem E reqUserId _ out hall p hp
  obtain ⟨hm1, hm2⟩ := (mem_findRoom _ _ _).mp hm
  obtain ⟨hs, hr, hroom⟩ := hstore m hm1
  have hf := decryptMessage_fields E reqUserId m p hmp
  have e1 : p.senderId = m.senderId := congrArg (fun f => f.2.2.1) hf
  have e2 : p.receiverId = m.receiverId := congrArg (fun f => f.2.2.2.1) hf
  rw [e1, e2]
  exact getRoomId_pair m.senderId m.receiverId A B hs hr hA hB (hroom.symm.trans hm2)

/-- C23 at the pairs `("alice", "bob")` and `("bob", "alice")` and the store of three
sends, two of them between `"alice"` and `"bob"`. -/
theorem getRoomId_determines_pair_witness :
    ((js "alice" = js "bob" ∧ js "bob" = js "alice") ∨
        (js "alice" = js "alice" ∧ js "bob" = js "bob")) ∧
      ∀ p ∈ [({ _id := 3, roomId := js "alice-bob", senderId := js "alice",
                receiverId := js "bob", content := js "hi", status := Status.sent,
                createdAt := 1000 } : MessagePayload),
             { _id := 1, roomId := js "alice-bob", senderId := js "alice",
               receiverId := js "bob", content := js "hi", status := Status.sent,
               createdAt := 2000 }],
        (p.senderId = js "alice" ∧ p.receiverId = js "bob") ∨
          (p.senderId = js "bob" ∧ p.receiverId = js "alice") :=
  getRoomId_determines_pair (js "alice") (js "bob") (js "bob") (js "alice") (by decide)
    (by decide) (by decide) (by decide) (by decide) demoCrypto
    (run demoCrypto ServerState.init demoThreeSends) (js "bob") _ (by decide) (by decide)

end ChatApp
